import Mathlib

/-!
# Verification of the clinical-note segmentation and evaluation core

A shallow embedding of the section-detection, chunking, citation-parsing,
citation-validation and fact-deduplication code of `clinicalnoteparser`
(`src/app/sections.py`, `src/app/chunks.py`, `src/app/evaluation.py`,
`src/app/summarizer.py`, `src/app/schemas.py`), together with theorems
settling the specification's claims about that code.

Python strings are modelled as `List Char` (`Str`), Python `int` as `ℤ`
(with `ℕ` where the source value is a length, a count or a parsed digit
run), Python `float` similarity scores as `ℚ`, and fallible constructors
(pydantic validators raising `ValueError`, attribute access raising
`AttributeError`) as `Except PyErr`.
-/

namespace ClinicalNotes

/-- Python strings, modelled as lists of characters. -/
abbrev Str := List Char

/-- The characters Python's `str.strip()` / `\s` treat as whitespace
(space, tab, newline, carriage return, vertical tab, form feed). -/
def pyIsSpace (c : Char) : Bool :=
  c = ' ' || c = '\t' || c = '\n' || c = '\r' || c = Char.ofNat 11 || c = Char.ofNat 12

/-- Python `str.lstrip()`. -/
def pyLStrip (s : Str) : Str := s.dropWhile pyIsSpace

/-- Python `str.rstrip()`. -/
def pyRStrip (s : Str) : Str := (s.reverse.dropWhile pyIsSpace).reverse

/-- Python `str.strip()`. -/
def pyStrip (s : Str) : Str := pyRStrip (pyLStrip s)

/-- Python `str.rstrip(":")`: drop trailing colons. -/
def pyRStripColon (s : Str) : Str := (s.reverse.dropWhile (· = ':')).reverse

/-- Python `str.lower()` (ASCII case folding suffices for this code base). -/
def pyLower (s : Str) : Str := s.map Char.toLower

/-- Python `str.upper()`. -/
def pyUpper (s : Str) : Str := s.map Char.toUpper

/-- ASCII decimal digit test (`str.isdigit` / regex `\d` on ASCII text). -/
def pyIsDigit (c : Char) : Bool := '0' ≤ c && c ≤ '9'

/-- ASCII letter test. -/
def pyIsAlpha (c : Char) : Bool := ('a' ≤ c && c ≤ 'z') || ('A' ≤ c && c ≤ 'Z')

/-- Python `str.isupper()`: at least one cased character and no cased
character lowercase (ASCII: cased characters are letters). -/
def pyIsUpper (s : Str) : Bool :=
  s.any pyIsAlpha && s.all (fun c => !('a' ≤ c && c ≤ 'z'))

/-- Python `str.split("\n")`: split on single newlines, keeping empty parts. -/
def splitLines : Str → List Str
  | [] => [[]]
  | '\n' :: rest => [] :: splitLines rest
  | c :: rest =>
    match splitLines rest with
    | [] => [[c]]
    | l :: ls => (c :: l) :: ls

/-- Python `str.split("\n\n")`: split on double newlines (leftmost,
non-overlapping), keeping empty parts. -/
def splitPara : Str → List Str
  | [] => [[]]
  | '\n' :: '\n' :: rest => [] :: splitPara rest
  | c :: rest =>
    match splitPara rest with
    | [] => [[c]]
    | l :: ls => (c :: l) :: ls

/-- Python `str.split()` with no argument: split on whitespace runs,
discarding empty parts. -/
def pySplitWs : Str → List Str
  | [] => []
  | c :: rest =>
    if pyIsSpace c then pySplitWs rest
    else
      match pySplitWs rest with
      | [] => [[c]]
      | l :: ls =>
        match rest with
        | [] => [[c]]
        | d :: _ => if pyIsSpace d then [c] :: l :: ls else (c :: l) :: ls

/-- Index of the leftmost occurrence of `pat` as a contiguous substring of
`s`, if any (the search underlying Python's `in` and `str.find`). -/
def subIndex (pat : Str) : Str → Option ℕ
  | [] => if pat = [] then some 0 else none
  | c :: rest =>
    if pat.isPrefixOf (c :: rest) then some 0
    else (subIndex pat rest).map (· + 1)

/-- Python's `pat in s`. -/
def containsSub (pat s : Str) : Bool := (subIndex pat s).isSome

/-- Python `s.find(pat)`: leftmost index or `-1`. -/
def pyFind (pat s : Str) : ℤ :=
  match subIndex pat s with
  | some i => (i : ℤ)
  | none => -1

/-- Normalize one endpoint of a Python slice `s[a:b]` to `[0, len s]`. -/
def sliceNorm (len : ℕ) (i : ℤ) : ℕ :=
  if i < 0 then ((len : ℤ) + i).toNat else min i.toNat len

/-- Python slicing `s[a:b]`. -/
def pySlice (s : Str) (a b : ℤ) : Str :=
  let lo := sliceNorm s.length a
  let hi := sliceNorm s.length b
  (s.take hi).drop lo

/-- Python suffix slicing `s[-k:]` for `k > 0`: the last `min k (len s)`
characters. -/
def pyTakeLast (k : ℕ) (s : Str) : Str := s.drop (s.length - k)

/-- Parse a nonempty run of ASCII digits as a natural number (`int(...)`
applied to a `\d+` capture). -/
def natOfDigits (s : Str) : ℕ :=
  s.foldl (fun acc c => acc * 10 + (c.toNat - '0'.toNat)) 0

end ClinicalNotes

namespace ClinicalNotes

/-! ## Data model (src/app/schemas.py)

Pydantic field validators that raise `ValueError` are modelled by
`Except`-returning smart constructors. -/

/-- A Python exception relevant to this code base. -/
inductive PyErr where
  | valueError (msg : String)
  | attributeError (name : String)
  deriving DecidableEq, Repr

/-- `PageSpan`: character span of one source page. -/
structure PageSpan where
  start_char : ℤ
  end_char : ℤ
  page_index : ℤ
  deriving DecidableEq, Repr

/-- `CanonicalNote`: normalized text plus page mapping. -/
structure CanonicalNote where
  text : Str
  page_spans : List PageSpan
  deriving DecidableEq, Repr

/-- `Section`: a titled contiguous character range. -/
structure Section where
  title : Str
  start_char : ℤ
  end_char : ℤ
  start_page : ℤ
  end_page : ℤ
  deriving DecidableEq, Repr

/-- `Section(...)` construction: the `validate_end_after_start` validator
rejects `end_char ≤ start_char`. -/
def mkSection (title : Str) (s e sp ep : ℤ) : Except PyErr Section :=
  if e ≤ s then .error (.valueError "end_char must be greater than start_char")
  else .ok ⟨title, s, e, sp, ep⟩

/-- `Chunk`: a text chunk for LLM processing. -/
structure Chunk where
  chunk_id : Str
  text : Str
  start_char : ℤ
  end_char : ℤ
  section_title : Str
  deriving DecidableEq, Repr

/-- `Chunk(...)` construction with its `end_char > start_char` validator. -/
def mkChunk (cid : Str) (t : Str) (s e : ℤ) (sec : Str) : Except PyErr Chunk :=
  if e ≤ s then .error (.valueError "end_char must be greater than start_char")
  else .ok ⟨cid, t, s, e, sec⟩

/-- `Citation`: a global character span with a page. -/
structure Citation where
  start_char : ℤ
  end_char : ℤ
  page : ℤ
  deriving DecidableEq, Repr

/-- `SpanFact`: an extracted fact with citation spans.  The float
`confidence` is modelled as `ℚ`; it plays no arithmetic role in the
deduplication code. -/
structure SpanFact where
  fact_text : Str
  category : Str
  citations : List Citation
  confidence : ℚ
  uncertainty_note : Option Str
  deriving DecidableEq, Repr

/-- `SummaryItem`: a summary line with its free-text source citation. -/
structure SummaryItem where
  text : Str
  source : Str
  deriving DecidableEq, Repr

/-- `StructuredSummary`: the seven-section structured summary.  Note the
seventh field is named `concise_assessment`. -/
structure StructuredSummary where
  patient_snapshot : List SummaryItem
  key_problems : List SummaryItem
  pertinent_history : List SummaryItem
  medicines_allergies : List SummaryItem
  objective_findings : List SummaryItem
  labs_imaging : List SummaryItem
  concise_assessment : List SummaryItem
  deriving DecidableEq, Repr

/-- Python attribute access `structured_summary.<name>` on a
`StructuredSummary` instance: defined exactly for the model's declared
field names, `AttributeError` (here: `none`) for any other name. -/
def StructuredSummary.getField (s : StructuredSummary) : String → Option (List SummaryItem)
  | "patient_snapshot" => some s.patient_snapshot
  | "key_problems" => some s.key_problems
  | "pertinent_history" => some s.pertinent_history
  | "medicines_allergies" => some s.medicines_allergies
  | "objective_findings" => some s.objective_findings
  | "labs_imaging" => some s.labs_imaging
  | "concise_assessment" => some s.concise_assessment
  | _ => none

/-- Modelled from the spec: `PlanRecommendation` / `StructuredPlan` are
imported from `app.schemas` but missing from the `src/` snapshot; their
shape is taken from their callers in `src/app/evaluation.py`
(`rec.recommendation`, `rec.source`, `rec.number`, `rec.confidence`,
`structured_plan.recommendations`). -/
structure PlanRecommendation where
  recommendation : Str
  source : Str
  number : ℤ
  confidence : Option ℚ
  deriving DecidableEq, Repr

/-- Modelled from the spec: the structured plan is a list of prioritized
recommendations (see `PlanRecommendation`). -/
structure StructuredPlan where
  recommendations : List PlanRecommendation
  deriving DecidableEq, Repr

/-! ## Section detection (src/app/sections.py) -/

/-- `'A' ≤ c ≤ 'Z'`, the regex class `[A-Z]`. -/
def isUpperAZ (c : Char) : Bool := 'A' ≤ c && c ≤ 'Z'

/-- `alt` is a case-insensitive prefix of `s` (the effect of
`re.match(r"^(?:alt|...)", s, re.IGNORECASE)` for one literal alternative). -/
def ciHasPref (alt s : Str) : Bool := (pyLower alt).isPrefixOf (pyLower s)

/-- The literal alternatives of `CLINICAL_SECTION_PATTERNS`, one inner list
per pattern, in source order.  Since the patterns are applied with
`re.match` (prefix semantics), the optional-suffix forms `LABS?` and
`PROCEDURES?` are equivalent to the plain literals `LAB` / `PROCEDURE`. -/
def clinicalSectionPatterns : List (List Str) :=
  [ ["SUBJECTIVE".toList],
    ["OBJECTIVE".toList],
    ["HISTORY".toList, "HISTORY OF PRESENT ILLNESS".toList, "HPI".toList],
    ["PAST MEDICAL HISTORY".toList, "PMH".toList, "PAST HISTORY".toList],
    ["PHYSICAL EXAM".toList, "PHYSICAL EXAMINATION".toList, "PE".toList, "EXAM".toList],
    ["MEDICATIONS".toList, "MEDS".toList, "CURRENT MEDICATIONS".toList],
    ["ALLERGIES".toList, "ALLERGY".toList, "ADVERSE REACTIONS".toList],
    ["LAB".toList, "LABORATORY".toList, "LAB RESULTS".toList],
    ["IMAGING".toList, "RADIOLOGY".toList, "X-RAY".toList, "CT".toList, "MRI".toList],
    ["ASSESSMENT".toList, "ASSESSMENT AND PLAN".toList, "A&P".toList],
    ["PLAN".toList],
    ["DIAGNOSIS".toList, "DIAGNOSES".toList],
    ["PROCEDURE".toList, "SURGERY".toList],
    ["SOCIAL HISTORY".toList, "SH".toList],
    ["FAMILY HISTORY".toList, "FH".toList],
    ["REVIEW OF SYSTEMS".toList, "ROS".toList],
    ["CHIEF COMPLAINT".toList, "CC".toList],
    ["VITAL SIGNS".toList, "VITALS".toList],
    ["HEENT".toList],
    ["NECK".toList],
    ["LUNGS".toList],
    ["CARDIOVASCULAR".toList, "CV".toList],
    ["ABDOMEN".toList, "ABD".toList],
    ["EXTREMITIES".toList, "EXT".toList],
    ["NEUROLOGIC".toList, "NEURO".toList] ]

/-- `header_text` matches some clinical section pattern
(`any(re.match(pattern, header_text, re.IGNORECASE) ...)`). -/
def matchesClinicalPattern (ht : Str) : Bool :=
  clinicalSectionPatterns.any (fun alts => alts.any (fun a => ciHasPref a ht))

/-- One overview label pattern `(?i)w1\s+w2`: `w1`, one or more whitespace
characters, `w2`, case-insensitively, anywhere in `s`. -/
def labelPairAt (w1 w2 : Str) : Str → Bool
  | [] => w1 = [] && w2 = []
  | c :: rest =>
    (ciHasPref w1 (c :: rest) &&
      (let r := (c :: rest).drop w1.length
       let w := r.takeWhile pyIsSpace
       decide (w ≠ []) && ciHasPref w2 (r.drop w.length))) ||
    labelPairAt w1 w2 rest

/-- `\s*$` with backtracking (`$` under `re.MULTILINE`: end of string or
just before a newline). -/
def wsThenEOL : Str → Bool
  | [] => true
  | c :: r => c = '\n' || (pyIsSpace c && wsThenEOL r)

/-- `[A-Z\s]{need,}:?\s*$` with backtracking. -/
def capsRun : ℕ → Str → Bool
  | need, [] => need = 0
  | need, c :: r =>
    (need = 0 && ((c = ':' && wsThenEOL r) || wsThenEOL (c :: r))) ||
    ((isUpperAZ c || pyIsSpace c) && capsRun (need - 1) r)

/-- `\s*[A-Z][A-Z\s]{3,}:?\s*$` with backtracking, anchored at the current
position (the body of `first_section_pattern` after its `^`). -/
def wsCapsStart : Str → Bool
  | [] => false
  | c :: r => (isUpperAZ c && capsRun 3 r) || (pyIsSpace c && wsCapsStart r)

/-- The lines of `s` paired with their character offsets, starting at
`off` (positions as in `line_start_positions`). -/
def linesWithPos (off : ℕ) : List Str → List (ℕ × Str)
  | [] => []
  | l :: ls => (off, l) :: linesWithPos (off + l.length + 1) ls

/-- The `^` anchor positions of `s` under `re.MULTILINE`: offset 0 and
every position just after a newline. -/
def lineStartPositions (s : Str) : List ℕ :=
  (linesWithPos 0 (splitLines s)).map Prod.fst

/-- Start of the leftmost `re.MULTILINE` match of
`^\s*([A-Z][A-Z\s]{3,}):?\s*$` in `s`, if any. -/
def firstSectionStart (s : Str) : Option ℕ :=
  (lineStartPositions s).find? (fun p => wsCapsStart (s.drop p))

/-- Start of the leftmost `re.MULTILINE`, `re.IGNORECASE` match of a
pattern with literal alternatives `alts` (each anchored by `^`). -/
def patternStart (alts : List Str) (s : Str) : Option ℕ :=
  (lineStartPositions s).find? (fun p => alts.any (fun a => ciHasPref a (s.drop p)))

/-- The `for pattern in CLINICAL_SECTION_PATTERNS` fallback loop of
`detect_overview_section`: position of the first pattern (in list order)
that matches anywhere in `s`. -/
def clinicalPatternLoop (s : Str) : Option ℕ :=
  clinicalSectionPatterns.foldr (fun alts acc =>
    match patternStart alts s with
    | some i => some i
    | none => acc) none

/-- `detect_overview_section` (with its default `start_pos = 0`, the only
way `detect_sections` calls it): returns the overview end position and the
overview title. -/
def detect_overview_section (text : Str) : ℕ × Option Str :=
  let window := text.take 2000
  let overview_found :=
    labelPairAt "medical".toList "specialty".toList window ||
    labelPairAt "sample".toList "name".toList window ||
    containsSub "description".toList (pyLower window)
  if !overview_found then (0, none)
  else
    match firstSectionStart text with
    | some i => (i, some "Overview".toList)
    | none =>
      match clinicalPatternLoop text with
      | some i => (i, some "Overview".toList)
      | none => (text.length, some "Overview".toList)

/-- The per-line filter of `find_section_headers_in_text`: leading
whitespace at most 3 columns, stripped line nonempty and upper-case,
header text (trailing colons removed) of length in `[3, 100)`, and either
a clinical-pattern match or the permissive all-caps fallback
(length in `[4, 50]`, no digits, at most 5 words).  Returns the leading
whitespace width and the header text when all checks pass. -/
def lineHeaderInfo (l : Str) : Option (ℕ × Str) :=
  let stripped := pyStrip l
  if stripped = [] then none
  else
    let lw := l.length - (pyLStrip l).length
    if 3 < lw then none
    else if !pyIsUpper stripped then none
    else
      let ht := pyRStripColon stripped
      if ht.length < 3 || 100 ≤ ht.length then none
      else
        let pat :=
          matchesClinicalPattern ht ||
          (4 ≤ ht.length && ht.length ≤ 50 &&
            !ht.any pyIsDigit && (pySplitWs ht).length ≤ 5)
        if pat then some (lw, ht) else none

/-- The candidate scan of `find_section_headers_in_text`: walk the lines
with their offsets, keeping header lines that are "standalone" (first
line, or previous line blank, or a nonempty next line exists). -/
def headerCandidatesAux (prev : Option Str) (off : ℕ) : List Str → List (ℕ × Str)
  | [] => []
  | l :: rest =>
    let keep : List (ℕ × Str) :=
      match lineHeaderInfo l with
      | some (lw, ht) =>
        let standalone :=
          match prev with
          | none => true
          | some pl =>
            pyStrip pl = [] ||
            (match rest with
             | n :: _ => decide (pyStrip n ≠ [])
             | [] => false)
        if standalone then [(off + lw, ht)] else []
      | none => []
    keep ++ headerCandidatesAux (some l) (off + l.length + 1) rest

/-- The duplicate-removal pass: keep the first candidate for each
`(position, upper-cased text)` key. -/
def dedupSeen (seen : List (ℕ × Str)) : List (ℕ × Str) → List (ℕ × Str)
  | [] => []
  | (p, h) :: rest =>
    if (p, pyUpper h) ∈ seen then dedupSeen seen rest
    else (p, h) :: dedupSeen ((p, pyUpper h) :: seen) rest

/-- `find_section_headers_in_text`: header candidates of `text` after
`overview_end`, sorted by position and deduplicated.  (The `is_pdf`,
`pdf_file_path` and `canonical_note` parameters of the source function are
never used by its body and are omitted.) -/
def find_section_headers_in_text (text : Str) (overview_end : ℕ) : List (ℕ × Str) :=
  let search_text := text.drop overview_end
  let candidates := headerCandidatesAux none overview_end (splitLines search_text)
  dedupSeen [] (List.insertionSort (fun a b => a.1 ≤ b.1) candidates)

/-- `_char_span_to_page`: one-based page of a character span. -/
def charSpanToPage (s e : ℤ) (spans : List PageSpan) : ℤ :=
  match spans.find? (fun sp => decide (sp.start_char ≤ s) && decide (s < sp.end_char)) with
  | some sp => sp.page_index + 1
  | none =>
    match spans.find? (fun sp => decide (sp.start_char ≤ e) && decide (e ≤ sp.end_char)) with
    | some sp => sp.page_index + 1
    | none => 1

/-- The header loop of `create_sections_from_headers`: each header opens a
section reaching to the next header's position (or the end of the text). -/
def sectionsFromHeaderList (text : Str) (note : CanonicalNote) :
    List (ℕ × Str) → Except PyErr (List Section)
  | [] => .ok []
  | (p, t) :: rest => do
    let e : ℤ := match rest with | (q, _) :: _ => (q : ℤ) | [] => (text.length : ℤ)
    let sp := charSpanToPage p e note.page_spans
    let ep := charSpanToPage (e - 1) e note.page_spans
    let s ← mkSection (pyStrip t) p e (sp - 1) (ep - 1)
    let tl ← sectionsFromHeaderList text note rest
    .ok (s :: tl)

/-- `create_sections_from_headers`. -/
def create_sections_from_headers (text : Str) (headers : List (ℕ × Str))
    (overview_end : ℕ) (note : CanonicalNote) : Except PyErr (List Section) := do
  let ovPart ←
    if 0 < overview_end then do
      let sp := charSpanToPage 0 overview_end note.page_spans
      let ep := charSpanToPage ((overview_end : ℤ) - 1) overview_end note.page_spans
      let s ← mkSection "Overview".toList 0 overview_end (sp - 1) (ep - 1)
      pure [s]
    else pure ([] : List Section)
  let filtered := headers.filter (fun ph => overview_end ≤ ph.1)
  let hsecs ← sectionsFromHeaderList text note filtered
  .ok (ovPart ++ hsecs)

/-- `detect_sections`.  (The `file_path` parameter only feeds the unused
PDF arguments of `find_section_headers_in_text`, and `config` only gates a
log message; both are omitted.) -/
def detect_sections (note : CanonicalNote) : Except PyErr (List Section) := do
  let text := note.text
  let overview_end := (detect_overview_section text).1
  let headers := find_section_headers_in_text text overview_end
  let sections ← create_sections_from_headers text headers overview_end note
  if sections.isEmpty then do
    let end_page : ℤ :=
      if note.page_spans ≠ [] then (note.page_spans.length : ℤ) - 1 else 0
    let s ← mkSection "Full Note".toList 0 (text.length : ℤ) 0 end_page
    .ok [s]
  else .ok sections

end ClinicalNotes

namespace ClinicalNotes

/-! ## Chunking (src/app/chunks.py) -/

/-- `split_into_paragraphs`: split on blank lines, strip, drop empties. -/
def split_into_paragraphs (t : Str) : List Str :=
  ((splitPara t).map pyStrip).filter (fun p => decide (p ≠ []))

/-- `re.split(r'([.!?])\s+', p)`: the alternating pieces/captured-punctuation
list produced by Python's capturing split.  `acc` is the piece scanned so
far. -/
def sentenceSplitAux (acc : Str) : Str → List Str
  | [] => [acc]
  | c :: rest =>
    if (c = '.' || c = '!' || c = '?') &&
        (match rest with | d :: _ => pyIsSpace d | [] => false) then
      acc :: [c] :: sentenceSplitAux [] (rest.dropWhile pyIsSpace)
    else sentenceSplitAux (acc ++ [c]) rest
  termination_by l => l.length
  decreasing_by
    · simp only [List.length_cons]
      exact Nat.lt_succ_of_le (List.dropWhile_sublist pyIsSpace).length_le
    · simp

/-- The reconstruction loop of `split_long_paragraph`: re-attach each
captured punctuation mark to its sentence. -/
def reconstructPairs : List Str → List Str
  | a :: b :: rest => (a ++ b) :: reconstructPairs rest
  | [a] => [a]
  | [] => []

/-- The greedy re-merge loop of `split_long_paragraph`. -/
def mergeSentences (maxSize : ℕ) : List Str → Str → List Str
  | [], cur => if cur ≠ [] then [pyStrip cur] else []
  | s :: rest, cur =>
    let s := pyStrip s
    if s = [] then mergeSentences maxSize rest cur
    else if cur ≠ [] && maxSize < cur.length + s.length + 1 then
      pyStrip cur :: mergeSentences maxSize rest s
    else if cur ≠ [] then mergeSentences maxSize rest (cur ++ ' ' :: s)
    else mergeSentences maxSize rest s

/-- `split_long_paragraph`. -/
def split_long_paragraph (p : Str) (maxSize : ℕ) : List Str :=
  if p.length ≤ maxSize then [p]
  else
    let sentences := sentenceSplitAux [] p
    let reconstructed := reconstructPairs sentences
    let chunks := mergeSentences maxSize reconstructed []
    if chunks ≠ [] then chunks else [p]

/-- `f"{section.title.lower().replace(' ', '_')}_{chunk_idx}"`. -/
def sectionChunkId (title : Str) (idx : ℕ) : Str :=
  (pyLower title).map (fun c => if c = ' ' then '_' else c) ++ '_' :: (toString idx).toList

/-- The paragraph-accumulation loop of `create_chunks_from_section`:
state is the processed-paragraph list, the running buffer `cur`, the
buffer's global start offset and the per-section chunk index. -/
def chunkLoop (sec : Section) (sectText : Str) (cs co : ℕ) :
    List Str → Str → ℤ → ℕ → Except PyErr (List Chunk)
  | [], cur, curStart, idx =>
    if cur ≠ [] then do
      let c ← mkChunk (sectionChunkId sec.title idx) (pyStrip cur) curStart sec.end_char sec.title
      .ok [c]
    else .ok []
  | para :: rest, cur, curStart, idx =>
    let pw := para ++ "\n\n".toList
    if cur ≠ [] && cs < cur.length + pw.length then do
      let chunkEnd : ℤ := sec.start_char + ((min cur.length sectText.length : ℕ) : ℤ)
      let c ← mkChunk (sectionChunkId sec.title idx) (pyStrip cur) curStart chunkEnd sec.title
      let next : Str × ℤ :=
        if 0 < co && co < cur.length then
          let ov := pyTakeLast co cur
          let ov :=
            match subIndex [' '] ov with
            | some k => if 0 < k then ov.drop (k + 1) else ov
            | none => ov
          (ov ++ "\n\n".toList ++ para, chunkEnd - (ov.length : ℤ))
        else (para, chunkEnd)
      let tl ← chunkLoop sec sectText cs co rest next.1 next.2 (idx + 1)
      .ok (c :: tl)
    else
      if cur ≠ [] then chunkLoop sec sectText cs co rest (cur ++ pw) curStart idx
      else
        let fnd := pyFind para sectText
        let curStart' := if 0 ≤ fnd then sec.start_char + fnd else curStart
        chunkLoop sec sectText cs co rest para curStart' idx

/-- `create_chunks_from_section`. -/
def create_chunks_from_section (sec : Section) (note : CanonicalNote)
    (cs co mp : ℕ) : Except PyErr (List Chunk) :=
  let sectText := pySlice note.text sec.start_char sec.end_char
  let paragraphs := split_into_paragraphs sectText
  let processed :=
    (paragraphs.map (fun p => if mp < p.length then split_long_paragraph p mp else [p])).flatten
  chunkLoop sec sectText cs co processed [] sec.start_char 0

end ClinicalNotes

namespace ClinicalNotes

/-! ## Citation parsing and validation (src/app/evaluation.py) -/

/-- Existence of a match of `(?:\s+section)?[,\(]` at the start of `r`
(the tail of the section-name regex after the lazily captured group). -/
def secTailMatch (r : Str) : Bool :=
  (let w := r.takeWhile pyIsSpace
   decide (w ≠ []) && "section".toList.isPrefixOf (r.drop w.length) &&
     (match (r.drop w.length).drop 7 with
      | c :: _ => c = ',' || c = '('
      | [] => false)) ||
  (match r with | c :: _ => c = ',' || c = '(' | [] => false)

/-- The lazy quantifier `[A-Z\s]+?` of the section-name regex: grow the
captured group one class character at a time, testing the tail at each
step, and return the shortest group whose tail matches. -/
def lazyGroup (acc : Str) : Str → Option Str
  | [] => none
  | c :: r =>
    if isUpperAZ c || pyIsSpace c then
      let acc' := acc ++ [c]
      if secTailMatch r then some acc' else lazyGroup acc' r
    else none

/-- `re.search(r'^([A-Z][A-Z\s]+?)(?:\s+section)?[,\(]', t)`: the captured
group, if the (start-anchored) pattern matches. -/
def sectionNameOf (t : Str) : Option Str :=
  match t with
  | c :: rest => if isUpperAZ c then lazyGroup [c] rest else none
  | [] => none

/-- The optional `(?::(\d+)-(\d+))?` tail of the chunk-token regex. -/
def chunkSpansAfter (after : Str) : Option (ℕ × ℕ) :=
  match after with
  | ':' :: r2 =>
    let d2 := r2.takeWhile pyIsDigit
    if d2 = [] then none
    else
      match r2.drop d2.length with
      | '-' :: r3 =>
        let d3 := r3.takeWhile pyIsDigit
        if d3 = [] then none else some (natOfDigits d2, natOfDigits d3)
      | _ => none
  | _ => none

/-- A match of `chunk_(\d+)(?::(\d+)-(\d+))?` anchored at the start of
`l`: the digit run naming the chunk and the optional span captures. -/
def chunkTokenAt (l : Str) : Option (Str × Option (ℕ × ℕ)) :=
  if "chunk_".toList.isPrefixOf l then
    let rest := l.drop 6
    let d1 := rest.takeWhile pyIsDigit
    if d1 = [] then none
    else some (d1, chunkSpansAfter (rest.drop d1.length))
  else none

/-- `re.search(r'chunk_(\d+)(?::(\d+)-(\d+))?', t)`: leftmost match. -/
def chunkSearch : Str → Option (Str × Option (ℕ × ℕ))
  | [] => none
  | c :: r =>
    match chunkTokenAt (c :: r) with
    | some x => some x
    | none => chunkSearch r

/-- A match of the fallback regex `chunk_(\d+)` anchored at `l`. -/
def chunkIdAt (l : Str) : Option Str :=
  if "chunk_".toList.isPrefixOf l then
    let d1 := (l.drop 6).takeWhile pyIsDigit
    if d1 = [] then none else some d1
  else none

/-- `re.search(r'chunk_(\d+)', t)`: leftmost match. -/
def chunkIdSearch : Str → Option Str
  | [] => none
  | c :: r =>
    match chunkIdAt (c :: r) with
    | some x => some x
    | none => chunkIdSearch r

/-- The result of `parse_citation_from_text`:
`(chunk_id, start_char, end_char, section_name)`. -/
abbrev ParsedCitation := Str × Option ℕ × Option ℕ × Option Str

/-- `parse_citation_from_text`. -/
def parse_citation_from_text (citation_text : Str) : Option ParsedCitation :=
  let t := pyStrip citation_text
  if t = [] || containsSub "none".toList (pyLower t) then none
  else
    let section_name := (sectionNameOf t).map pyStrip
    match chunkSearch t with
    | some (d1, sp) =>
      let cid := "chunk_".toList ++ d1
      match sp with
      | some (a, b) => some (cid, some a, some b, section_name)
      | none => some (cid, none, none, section_name)
    | none =>
      match chunkIdSearch t with
      | some d1 => some ("chunk_".toList ++ d1, none, none, section_name)
      | none => none

/-- `validate_citation_span`. -/
def validate_citation_span (s e : Option ℤ) (text_length : ℕ) : Bool :=
  match s, e with
  | some s, some e =>
    if s < 0 || e < 0 then false
    else if e ≤ s then false
    else if (text_length : ℤ) < e then false
    else true
  | _, _ => true

/-- `validate_section_name`. -/
def validate_section_name (cited : Option Str) (chunk_section_title : Str) : Bool :=
  match cited with
  | none => true
  | some n => pyUpper (pyStrip n) = pyUpper (pyStrip chunk_section_title)

/-- The chunk map `{chunk.chunk_id: chunk for chunk in chunks}`: on
duplicate ids the later chunk wins, so lookup finds the last match. -/
def chunkMapGet (chunks : List Chunk) (cid : Str) : Option Chunk :=
  chunks.reverse.find? (fun c => c.chunk_id = cid)

/-- Outcome of the per-citation validity checks in
`evaluate_summary_and_plan`: the `citation_invalid` flag and whether the
section-mismatch and span-out-of-chunk-bounds counters were incremented. -/
structure CiteCheck where
  invalid : Bool
  section_mismatch : Bool
  span_oob : Bool
  deriving DecidableEq, Repr

/-- The loop body of the citation-validity accounting in
`evaluate_summary_and_plan` for one parsed citation. -/
def checkCitation (parsed : ParsedCitation) (chunks : List Chunk)
    (text_length : ℕ) : CiteCheck :=
  let (cid, s?, e?, nm) := parsed
  match chunkMapGet chunks cid with
  | none => ⟨true, false, false⟩
  | some ch =>
    let mm := !validate_section_name nm ch.section_title
    let spanPart : Bool × Bool :=
      match s?, e? with
      | some s, some e =>
        let oob := decide ((s : ℤ) < ch.start_char) || decide (ch.end_char < (e : ℤ))
        let v := !validate_citation_span (some (s : ℤ)) (some (e : ℤ)) text_length
        (oob, oob || v)
      | _, _ =>
        (false, decide (ch.start_char < 0) || decide ((text_length : ℤ) < ch.end_char))
    ⟨mm || spanPart.2, mm, spanPart.1⟩

/-- Aggregate counters of one family's citation-validity loop. -/
structure CiteStats where
  total : ℕ
  invalid : ℕ
  mismatches : ℕ
  oob : ℕ
  deriving DecidableEq, Repr

/-- The citation-validity loop of `evaluate_summary_and_plan` over the
source strings of one item family. -/
def citationAccounting (sources : List Str) (chunks : List Chunk)
    (text_length : ℕ) : CiteStats :=
  sources.foldl
    (fun st src =>
      match parse_citation_from_text src with
      | none => st
      | some parsed =>
        let r := checkCitation parsed chunks text_length
        ⟨st.total + 1,
         st.invalid + (if r.invalid then 1 else 0),
         st.mismatches + (if r.section_mismatch then 1 else 0),
         st.oob + (if r.span_oob then 1 else 0)⟩)
    ⟨0, 0, 0, 0⟩

/-- The field names `extract_items_from_structured_summary` reads off the
structured summary, in source order; note the last one. -/
def summaryFieldNames : List String :=
  ["patient_snapshot", "key_problems", "pertinent_history",
   "medicines_allergies", "objective_findings", "labs_imaging", "assessment"]

/-- The field-collection loop of `extract_items_from_structured_summary`. -/
def extractItemsAux (s : StructuredSummary) : List String → Except PyErr (List SummaryItem)
  | [] => .ok []
  | n :: rest =>
    match s.getField n with
    | none => .error (.attributeError n)
    | some its => do
      let tl ← extractItemsAux s rest
      .ok (its ++ tl)

/-- `extract_items_from_structured_summary`. -/
def extract_items_from_structured_summary (s : StructuredSummary) :
    Except PyErr (List SummaryItem) :=
  extractItemsAux s summaryFieldNames

/-- `extract_recommendations_from_structured_plan`. -/
def extract_recommendations_from_structured_plan (p : StructuredPlan) :
    List PlanRecommendation :=
  p.recommendations

/-- The integer counters of the evaluation report (`citation_coverage`,
`citation_validity`, `section_name_mismatches`, `span_out_of_chunk_bounds`
and `orphan_claims` inputs).  The purely arithmetical percentage fields
and the Jaccard/consistency statistics derived from the same loops are
elided; no claim depends on them. -/
structure EvalCounts where
  summary_total : ℕ
  summary_with_source : ℕ
  plan_total : ℕ
  plan_with_source : ℕ
  summary_stats : CiteStats
  plan_stats : CiteStats
  deriving DecidableEq, Repr

/-- `evaluate_summary_and_plan`, down to the integer counters.  The
semantic-accuracy step that precedes item extraction in the source calls
the external embedding service and cannot raise an `AttributeError`; it is
elided here. -/
def evaluate_summary_and_plan (ss : StructuredSummary) (sp : StructuredPlan)
    (note : CanonicalNote) (chunks : List Chunk) : Except PyErr EvalCounts := do
  let text_length := note.text.length
  let summary_items ← extract_items_from_structured_summary ss
  let plan_recs := extract_recommendations_from_structured_plan sp
  let s_src := (summary_items.filter (fun it => decide (it.source ≠ []))).map (·.source)
  let p_src := (plan_recs.filter (fun r => decide (r.source ≠ []))).map (·.source)
  .ok ⟨summary_items.length, s_src.length, plan_recs.length, p_src.length,
       citationAccounting s_src chunks text_length,
       citationAccounting p_src chunks text_length⟩

/-! ## Fact deduplication (src/app/summarizer.py) -/

/-- Worker for `collapseWs`: `inRun` records whether the previous
character was whitespace (its run already emitted a single space). -/
def collapseWsAux (inRun : Bool) : Str → Str
  | [] => []
  | c :: rest =>
    if pyIsSpace c then
      (if inRun then [] else [' ']) ++ collapseWsAux true rest
    else c :: collapseWsAux false rest

/-- `re.sub(r"\s+", " ", t)`: collapse whitespace runs to single spaces. -/
def collapseWs (s : Str) : Str := collapseWsAux false s

/-- Regex `\w` on ASCII text: letters, digits, underscore. -/
def pyIsWordChar (c : Char) : Bool := pyIsAlpha c || pyIsDigit c || c = '_'

/-- `normalize_text_for_dedup`: lowercase, drop punctuation, collapse
whitespace, strip. -/
def normalize_text_for_dedup (t : Str) : Str :=
  pyStrip (collapseWs ((pyLower t).filter (fun c => pyIsWordChar c || pyIsSpace c)))

/-- `calculate_text_similarity`: token-set Jaccard similarity of the
normalized texts. -/
def calculate_text_similarity (t1 t2 : Str) : ℚ :=
  let n1 := normalize_text_for_dedup t1
  let n2 := normalize_text_for_dedup t2
  if n1 = [] || n2 = [] then 0
  else
    let s1 := (pySplitWs n1).dedup
    let s2 := (pySplitWs n2).dedup
    if s1 = [] || s2 = [] then 0
    else
      let inter := (s1.filter (· ∈ s2)).length
      let union := (s1 ++ s2.filter (· ∉ s1)).length
      if 0 < union then mkRat (inter : ℤ) union else 0

/-- `calculate_span_overlap`: intersection length over the smaller span
length. -/
def calculate_span_overlap (span1 span2 : Citation) : ℚ :=
  let so := max span1.start_char span2.start_char
  let eo := min span1.end_char span2.end_char
  if eo ≤ so then 0
  else
    let ov := eo - so
    let l1 := span1.end_char - span1.start_char
    let l2 := span2.end_char - span2.start_char
    let ml := min l1 l2
    if 0 < ml then mkRat ov ml.toNat else 0

/-- The duplicate test of `deduplicate_facts` for a new fact `f` against
an accepted fact `e`: text similarity above `0.9`, then span overlap above
`0.8` or (again) similarity above `0.9`. -/
def dupCondition (f e : SpanFact) : Bool :=
  let sim := calculate_text_similarity f.fact_text e.fact_text
  decide (mkRat 9 10 < sim) &&
    (let overlaps :=
      (f.citations.map (fun c1 =>
        e.citations.map (fun c2 => calculate_span_overlap c1 c2))).flatten
     let maxOv := overlaps.foldl max 0
     decide (mkRat 8 10 < maxOv) || decide (mkRat 9 10 < sim))

/-- The accumulation loop of `deduplicate_facts`: `ded` is the list of
accepted facts; a duplicate with more citations replaces the accepted
fact, otherwise the new fact is dropped. -/
def dedupLoop : List SpanFact → List SpanFact → List SpanFact
  | ded, [] => ded
  | ded, f :: rest =>
    match ded.find? (fun e => dupCondition f e) with
    | some e =>
      if e.citations.length < f.citations.length then
        dedupLoop (ded.erase e ++ [f]) rest
      else dedupLoop ded rest
    | none => dedupLoop (ded ++ [f]) rest

/-- `deduplicate_facts`. -/
def deduplicate_facts (facts : List SpanFact) : List SpanFact :=
  dedupLoop [] facts

end ClinicalNotes

namespace ClinicalNotes

/-! ## Derived definitions used by the theorems -/

/-- Character `c` lies in some section of `ss`. -/
def coveredBySections (ss : List Section) (c : ℤ) : Prop :=
  ∃ s ∈ ss, s.start_char ≤ c ∧ c < s.end_char

instance (ss : List Section) (c : ℤ) : Decidable (coveredBySections ss c) := by
  unfold coveredBySections; infer_instance

/-- The overview boundary computed by `detect_sections` for a note. -/
def overviewEndOf (note : CanonicalNote) : ℕ :=
  (detect_overview_section note.text).1

/-- The header candidates `detect_sections` turns into sections: the
detected headers, restricted to positions at or after the overview
boundary (the filter in `create_sections_from_headers`). -/
def filteredHeadersOf (note : CanonicalNote) : List (ℕ × Str) :=
  (find_section_headers_in_text note.text (overviewEndOf note)).filter
    (fun ph => overviewEndOf note ≤ ph.1)

/-- The degenerate `Full Note` section the `detect_sections` fallback
builds. -/
def fullNoteOf (note : CanonicalNote) : Section :=
  ⟨"Full Note".toList, 0, (note.text.length : ℤ), 0,
   if note.page_spans ≠ [] then (note.page_spans.length : ℤ) - 1 else 0⟩

/-- The duplicate test the deduplication spec reduces to: text similarity
above `0.9` alone (stated to compare with `dupCondition`). -/
def simOnlyCondition (f e : SpanFact) : Bool :=
  decide (mkRat 9 10 < calculate_text_similarity f.fact_text e.fact_text)

/-- `deduplicate_facts` with the duplicate test replaced by
`simOnlyCondition` (the loop is otherwise identical). -/
def dedupLoopSimOnly : List SpanFact → List SpanFact → List SpanFact
  | ded, [] => ded
  | ded, f :: rest =>
    match ded.find? (fun e => simOnlyCondition f e) with
    | some e =>
      if e.citations.length < f.citations.length then
        dedupLoopSimOnly (ded.erase e ++ [f]) rest
      else dedupLoopSimOnly ded rest
    | none => dedupLoopSimOnly (ded ++ [f]) rest

/-- Deduplication by text similarity alone. -/
def deduplicateBySimilarityOnly (facts : List SpanFact) : List SpanFact :=
  dedupLoopSimOnly [] facts

/-! ## Concrete inputs used by counterexamples and witnesses -/

/-- A note with prose before its only detected header. -/
def gapNote : CanonicalNote := ⟨"intro\n\nPLAN\ncontent".toList, [⟨0, 19, 0⟩]⟩

/-- The empty note. -/
def emptyNote : CanonicalNote := ⟨[], []⟩

/-- A note whose single section holds two paragraphs. -/
def twoParaNote : CanonicalNote := ⟨"AA\n\nBB".toList, [⟨0, 6, 0⟩]⟩

/-- The section covering all of `twoParaNote`. -/
def twoParaSection : Section := ⟨"S".toList, 0, 6, 0, 0⟩

/-- A note whose first paragraph ends in a long word, so the overlap
window contains no space. -/
def overlapNote : CanonicalNote := ⟨"abcdefgh\n\nxy".toList, [⟨0, 12, 0⟩]⟩

/-- The section covering all of `overlapNote`. -/
def overlapSection : Section := ⟨"S".toList, 0, 12, 0, 0⟩

/-- A single-paragraph note. -/
def singleParaNote : CanonicalNote := ⟨"HELLO WORLD".toList, [⟨0, 11, 0⟩]⟩

/-- The section covering all of `singleParaNote`. -/
def singleParaSection : Section := ⟨"S".toList, 0, 11, 0, 0⟩

/-- A chunk used by the citation-validity examples. -/
def demoChunk : Chunk := ⟨"chunk_0".toList, "T".toList, 0, 20, "PLAN".toList⟩

/-- Fact with tokens `a … j` and one citation. -/
def factA : SpanFact :=
  ⟨"a b c d e f g h i j".toList, "problem".toList, [⟨0, 5, 1⟩], 1, none⟩

/-- Fact with tokens `b … k` and one citation. -/
def factB : SpanFact :=
  ⟨"b c d e f g h i j k".toList, "problem".toList, [⟨10, 15, 1⟩], 1, none⟩

/-- Fact with tokens `a … k` and two citations. -/
def factC : SpanFact :=
  ⟨"a b c d e f g h i j k".toList, "problem".toList, [⟨0, 5, 1⟩, ⟨10, 15, 1⟩], 1, none⟩

/-- Fact with text `alpha`, citation span `[0, 10)`. -/
def factX : SpanFact := ⟨"alpha".toList, "problem".toList, [⟨0, 10, 1⟩], 1, none⟩

/-- Fact with text `beta`, same citation span `[0, 10)` as `factX`. -/
def factY : SpanFact := ⟨"beta".toList, "problem".toList, [⟨0, 10, 1⟩], 1, none⟩

end ClinicalNotes

namespace ClinicalNotes

/-! ## Claim theorems -/

/-- C3: for every `StructuredSummary` value,
`extract_items_from_structured_summary` fails with an `AttributeError`: it
reads the field `assessment`, which the model does not define (its seventh
item list is `concise_assessment`); consequently `evaluate_summary_and_plan`,
which calls it unconditionally, returns an error for every input. -/
theorem extract_items_always_attribute_error
    (s : StructuredSummary) (sp : StructuredPlan) (note : CanonicalNote)
    (chunks : List Chunk) :
    extract_items_from_structured_summary s = .error (.attributeError "assessment") ∧
    evaluate_summary_and_plan s sp note chunks = .error (.attributeError "assessment") := by
  constructor <;> rfl

/-- C5: `parse_citation_from_text` maps `"chunk_0:123-456"` to
`("chunk_0", 123, 456, None)`, `"PLAN, chunk_6"` to
`("chunk_6", None, None, "PLAN")`, and `"None mentioned"` to `None`. -/
theorem parse_citation_examples :
    parse_citation_from_text "chunk_0:123-456".toList =
      some ("chunk_0".toList, some 123, some 456, none) ∧
    parse_citation_from_text "PLAN, chunk_6".toList =
      some ("chunk_6".toList, none, none, some "PLAN".toList) ∧
    parse_citation_from_text "None mentioned".toList = none := by
  refine ⟨?_, ?_, ?_⟩ <;> rfl

/-- C6 (amended): the empty/whitespace/contains-"none" rule is applied
before the chunk-token shape: every citation string that is empty after
stripping, or whose lower-cased form contains the substring `"none"`,
parses to `None` — even when it contains a `chunk_<digits>` token. -/
theorem parse_citation_none_rule_first (t : Str)
    (h : pyStrip t = [] ∨ containsSub "none".toList (pyLower (pyStrip t)) = true) :
    parse_citation_from_text t = none := by
  unfold parse_citation_from_text
  rcases h with h | h
  · simp [h]
  · have h2 : containsSub ['n', 'o', 'n', 'e'] (pyLower (pyStrip t)) = true := h
    simp [h2]

/-- C6 witness: `"chunk_2, none"` satisfies the rule's hypothesis and
parses to `None`. -/
theorem parse_citation_none_rule_first_witness :
    (pyStrip "chunk_2, none".toList = [] ∨
      containsSub "none".toList (pyLower (pyStrip "chunk_2, none".toList)) = true) ∧
    parse_citation_from_text "chunk_2, none".toList = none :=
  ⟨by decide, parse_citation_none_rule_first "chunk_2, none".toList (by decide)⟩

/-- C6 counterexample: `"chunk_2, none"` is non-empty and contains the
token `chunk_2`, yet the parser returns `None`, not a structured chunk
citation: the contains-"none" rule is checked first. -/
theorem parse_citation_chunk_token_overridden :
    containsSub "chunk_2".toList "chunk_2, none".toList = true ∧
    parse_citation_from_text "chunk_2, none".toList = none := by
  constructor <;> rfl

/-- The duplicate test of `deduplicate_facts` collapses to the
text-similarity test alone: the span-overlap disjunct is only evaluated
under `similarity > 0.9`. -/
theorem dupCondition_eq_simOnly (f e : SpanFact) :
    dupCondition f e = simOnlyCondition f e := by
  simp only [dupCondition, simOnlyCondition]
  cases hd : decide (mkRat 9 10 < calculate_text_similarity f.fact_text e.fact_text) <;>
    simp [hd]

/-- The two deduplication loops agree. -/
theorem dedupLoop_eq_simOnly (rest : List SpanFact) :
    ∀ ded, dedupLoop ded rest = dedupLoopSimOnly ded rest := by
  induction rest with
  | nil => intro ded; rfl
  | cons f rest ih =>
    intro ded
    have hfe : (fun e => dupCondition f e) = (fun e => simOnlyCondition f e) :=
      funext fun e => dupCondition_eq_simOnly f e
    simp only [dedupLoop, dedupLoopSimOnly, hfe]
    cases h : ded.find? (fun e => simOnlyCondition f e) with
    | none => exact ih _
    | some e =>
      by_cases hc : e.citations.length < f.citations.length <;> simp [hc] <;> exact ih _

/-- C7 (amended): a new fact is treated as a duplicate of an accepted fact
exactly when their normalized-token-set similarity exceeds `0.9`; the
citation-span-overlap disjunct never triggers a merge on its own, because
it is only evaluated once the similarity test has already passed.
`deduplicate_facts` therefore coincides with deduplication by text
similarity alone. -/
theorem dedup_merges_only_on_text_similarity (facts : List SpanFact) :
    deduplicate_facts facts = deduplicateBySimilarityOnly facts :=
  dedupLoop_eq_simOnly facts []

/-- C7 counterexample: `factX` and `factY` have text similarity `0` (at
most `0.9`) and identical citation spans (overlap ratio `1 > 0.8`), so the
claim says they are merged; `deduplicate_facts` keeps both. -/
theorem dedup_span_overlap_not_merged :
    calculate_text_similarity factY.fact_text factX.fact_text ≤ mkRat 9 10 ∧
    mkRat 8 10 < calculate_span_overlap ⟨0, 10, 1⟩ ⟨0, 10, 1⟩ ∧
    deduplicate_facts [factX, factY] = [factX, factY] := by
  refine ⟨by decide, by decide, by decide⟩

end ClinicalNotes

namespace ClinicalNotes

/-- When no new fact is similar (above `0.9`) to any accepted or earlier
fact, the deduplication loop appends everything unchanged. -/
theorem dedupLoop_no_merge (rest : List SpanFact) : ∀ ded,
    (∀ f ∈ rest, ∀ e ∈ ded,
      calculate_text_similarity f.fact_text e.fact_text ≤ mkRat 9 10) →
    List.Pairwise
      (fun a b => calculate_text_similarity b.fact_text a.fact_text ≤ mkRat 9 10) rest →
    dedupLoop ded rest = ded ++ rest := by
  induction rest with
  | nil => intro ded _ _; simp [dedupLoop]
  | cons f rest ih =>
    intro ded hcross hpw
    rw [List.pairwise_cons] at hpw
    have hfind : ded.find? (fun e => dupCondition f e) = none := by
      apply List.find?_eq_none.mpr
      intro e he
      have hle := hcross f (by simp) e he
      simp [dupCondition, not_lt.mpr hle]
    simp only [dedupLoop, hfind]
    rw [ih (ded ++ [f]) ?_ hpw.2]
    · simp
    · intro f' hf' e he
      rcases List.mem_append.mp he with he | he
      · exact hcross f' (List.mem_cons_of_mem _ hf') e he
      · simp only [List.mem_singleton] at he
        subst he
        exact hpw.1 f' hf'

/-- C8 (amended): `deduplicate_facts` is not idempotent in general (see
the counterexample: replacing an accepted fact can leave two facts with
similarity above `0.9` in the output, which a second run merges); it is
the identity — hence trivially idempotent — on every list in which no
fact has similarity above `0.9` with an earlier one. -/
theorem dedup_identity_when_no_near_duplicates (facts : List SpanFact)
    (h : List.Pairwise
      (fun a b => calculate_text_similarity b.fact_text a.fact_text ≤ mkRat 9 10) facts) :
    deduplicate_facts facts = facts := by
  unfold deduplicate_facts
  rw [dedupLoop_no_merge facts [] (by simp) h]
  simp

/-- C8 witness: `factA, factB` have similarity `9/11 ≤ 0.9`, and
deduplication returns them unchanged. -/
theorem dedup_identity_when_no_near_duplicates_witness :
    List.Pairwise
      (fun a b => calculate_text_similarity b.fact_text a.fact_text ≤ mkRat 9 10)
      [factA, factB] ∧
    deduplicate_facts [factA, factB] = [factA, factB] :=
  ⟨by decide, dedup_identity_when_no_near_duplicates [factA, factB] (by decide)⟩

/-- C8 counterexample: on `[factA, factB, factC]` (similarities:
`A`/`C` and `B`/`C` are `10/11 > 0.9`, `A`/`B` is `9/11 ≤ 0.9`, and `C`
carries more citations) deduplication returns `[factB, factC]`, but a
second run returns `[factC]`: `deduplicate_facts` is not idempotent. -/
theorem dedup_not_idempotent :
    deduplicate_facts [factA, factB, factC] = [factB, factC] ∧
    deduplicate_facts [factB, factC] = [factC] ∧
    ([factC] : List SpanFact) ≠ [factB, factC] := by
  refine ⟨by decide, by decide, by decide⟩

/-- C9 (amended): for a citation that resolves to a chunk whose own bounds
lie within the document, the accounting marks it valid iff the asserted
section name (if any) matches the chunk's section title case-insensitively
after trimming, and the asserted span (if any) lies within the chunk's
global `[start_char, end_char]`, within `[0, document length]`, and is
non-degenerate (`start_char < end_char` — the condition the original
claim omits); section mismatches and span-out-of-chunk-bounds failures
are recorded in the two distinct counters characterized below. -/
theorem citation_validity_characterization
    (cid : Str) (os oe : Option ℕ) (nm : Option Str) (chunks : List Chunk)
    (textLen : ℕ) (ch : Chunk)
    (hch : chunkMapGet chunks cid = some ch)
    (hlo : 0 ≤ ch.start_char) (hhi : ch.end_char ≤ (textLen : ℤ)) :
    ((checkCitation (cid, os, oe, nm) chunks textLen).invalid = false ↔
      (validate_section_name nm ch.section_title = true ∧
        ∀ s e, os = some s → oe = some e →
          (ch.start_char ≤ (s : ℤ) ∧ (e : ℤ) ≤ ch.end_char ∧ s < e ∧ e ≤ textLen))) ∧
    ((checkCitation (cid, os, oe, nm) chunks textLen).section_mismatch = true ↔
      validate_section_name nm ch.section_title = false) ∧
    ((checkCitation (cid, os, oe, nm) chunks textLen).span_oob = true ↔
      ∃ s e, os = some s ∧ oe = some e ∧
        ((s : ℤ) < ch.start_char ∨ ch.end_char < (e : ℤ))) := by
  have h1 : ¬ (ch.start_char < 0) := not_lt.mpr hlo
  have h2 : ¬ ((textLen : ℤ) < ch.end_char) := not_lt.mpr hhi
  rcases os with _ | s <;> rcases oe with _ | e <;>
    cases hb : validate_section_name nm ch.section_title <;>
      (simp [checkCitation, hch, hb, h1, h2, validate_citation_span] <;> omega)

end ClinicalNotes

namespace ClinicalNotes

/-- C9 witness: citation `chunk_0:2-6` with section `PLAN` against
`demoChunk` (bounds `[0, 20]`, document length 20), instantiating the
validity characterization. -/
theorem citation_validity_characterization_witness :
    (chunkMapGet [demoChunk] "chunk_0".toList = some demoChunk ∧
      (0 : ℤ) ≤ demoChunk.start_char ∧ demoChunk.end_char ≤ ((20 : ℕ) : ℤ)) ∧
    ((checkCitation ("chunk_0".toList, some 2, some 6, some "PLAN".toList)
        [demoChunk] 20).invalid = false ↔
      (validate_section_name (some "PLAN".toList) demoChunk.section_title = true ∧
        ∀ s e, (some 2 : Option ℕ) = some s → (some 6 : Option ℕ) = some e →
          (demoChunk.start_char ≤ (s : ℤ) ∧ (e : ℤ) ≤ demoChunk.end_char ∧
            s < e ∧ e ≤ 20))) :=
  ⟨⟨by decide, by decide, by decide⟩,
    (citation_validity_characterization "chunk_0".toList (some 2) (some 6)
      (some "PLAN".toList) [demoChunk] 20 demoChunk (by decide) (by decide)
      (by decide)).1⟩

/-- C9 counterexample: the degenerate span citation `chunk_0:10-10` has
both ends within the chunk's `[start_char, end_char]` and within
`[0, document length]`, so the claim counts it valid; the code marks it
invalid (`validate_citation_span` rejects `start_char ≥ end_char`). -/
theorem citation_degenerate_span_invalid :
    checkCitation ("chunk_0".toList, some 10, some 10, none) [demoChunk] 20 =
      ⟨true, false, false⟩ ∧
    demoChunk.start_char ≤ (10 : ℤ) ∧ (10 : ℤ) ≤ demoChunk.end_char ∧
    (10 : ℕ) ≤ 20 := by
  refine ⟨by decide, by decide, by decide, by decide⟩

/-- C1 counterexample: on `gapNote` (`"intro\n\nPLAN\ncontent"`, no
Overview fields) `detect_sections` returns the single section
`[7, 19)`, so character 0 (the document is 19 characters long) lies
outside every returned section: the union of the sections is not
`[0, len(text))`. -/
theorem detect_sections_gap_counterexample :
    detect_sections gapNote = .ok [⟨"PLAN".toList, 7, 19, 0, 0⟩] ∧
    ¬ coveredBySections [⟨"PLAN".toList, 7, 19, 0, 0⟩] 0 ∧
    (0 : ℤ) < (gapNote.text.length : ℤ) := by
  refine ⟨by rfl, by decide, by decide⟩

/-- C4 counterexample: on the empty canonical text the fallback `Full
Note` section has `start_char = end_char = 0`, the `Section` validator
rejects it, and `detect_sections` raises instead of returning. -/
theorem detect_sections_empty_raises :
    detect_sections emptyNote =
      .error (.valueError "end_char must be greater than start_char") := by
  rfl

/-- C2 counterexample: on the two-paragraph section `"AA\n\nBB"` (no
overlap configured, so there is no carryover to remove) the single
produced chunk has text `"AABB"`: the blank-line separator between the
first two paragraphs of a chunk is dropped, so concatenating the chunk
texts does not reconstruct the section's substring, and the chunk's
`[0, 6)` span does not match its 4-character text. -/
theorem chunk_roundtrip_counterexample :
    create_chunks_from_section twoParaSection twoParaNote 1000 0 1000 =
      .ok [⟨"s_0".toList, "AABB".toList, 0, 6, "S".toList⟩] ∧
    "AABB".toList ≠ pySlice twoParaNote.text twoParaSection.start_char twoParaSection.end_char := by
  refine ⟨by rfl, by decide⟩

/-- C10 counterexample: chunking `"abcdefgh\n\nxy"` with
`chunk_size = 10`, `chunk_overlap = 4` carries over `"efgh"`, the last 4
characters of `"abcdefgh"`: the window contains no space, so no
word-boundary trimming happens and the second chunk's carryover starts in
the middle of the word (the document characters around its
`start_char = 4` are `"de"`, both letters). -/
theorem chunk_carryover_mid_word :
    create_chunks_from_section overlapSection overlapNote 10 4 100 =
      .ok [⟨"s_0".toList, "abcdefgh".toList, 0, 8, "S".toList⟩,
           ⟨"s_1".toList, ('e' :: 'f' :: 'g' :: 'h' :: '\n' :: '\n' :: 'x' :: 'y' :: []), 4, 12, "S".toList⟩] ∧
    pySlice overlapNote.text 3 5 = "de".toList := by
  refine ⟨by rfl, by rfl⟩

end ClinicalNotes

namespace ClinicalNotes

/-- Substring search on a cons cell: a prefix match here, or a match
further right. -/
theorem containsSub_cons (pat : Str) (c : Char) (rest : Str) :
    containsSub pat (c :: rest) = (pat.isPrefixOf (c :: rest) || containsSub pat rest) := by
  have hstep : subIndex pat (c :: rest) =
      if pat.isPrefixOf (c :: rest) then some 0 else (subIndex pat rest).map (· + 1) := rfl
  unfold containsSub
  rw [hstep]
  by_cases hp : pat.isPrefixOf (c :: rest) <;> simp [hp]

/-- A string is a prefix of itself, so self-search succeeds at index 0. -/
theorem subIndex_self (t : Str) : subIndex t t = some 0 := by
  cases t with
  | nil => rfl
  | cons c r =>
    unfold subIndex
    rw [if_pos]
    rw [List.isPrefixOf_iff_prefix]

/-- A text with no blank-line separator is a single paragraph. -/
theorem splitPara_no_sep (t : Str) (h : containsSub "\n\n".toList t = false) :
    splitPara t = [t] := by
  induction t with
  | nil => rfl
  | cons c rest ih =>
    rw [containsSub_cons, Bool.or_eq_false_iff] at h
    have hrest := ih h.2
    rw [splitPara.eq_def]
    split
    · rename_i heq
      exact absurd heq (List.cons_ne_nil c rest)
    · rename_i r heq
      exfalso
      rw [heq] at h
      simp [List.isPrefixOf] at h
    · rename_i c' rest' hne heq
      cases heq
      rw [hrest]

end ClinicalNotes

namespace ClinicalNotes

/-- C2 (amended): the round-trip law fails in general (see the
counterexample: the blank-line separator between the first two paragraphs
accumulated into a chunk is dropped, so neither the concatenated text nor
the chunk spans match the section's substring); it holds for sections
consisting of a single paragraph: when the section's substring is
nonempty, already stripped, contains no blank-line separator and fits in
`max_paragraph_size`, `create_chunks_from_section` returns exactly one
chunk whose text is the section's substring of the canonical text and
whose `[start_char, end_char)` span is the section's own span. -/
theorem chunk_roundtrip_single_paragraph
    (sec : Section) (note : CanonicalNote) (cs co mp : ℕ)
    (_hcs : 0 < cs) (_hco : co < cs) (_hmp : 0 < mp)
    (_hs0 : 0 ≤ sec.start_char) (hse : sec.start_char < sec.end_char)
    (_hsl : sec.end_char ≤ (note.text.length : ℤ))
    (hne : pySlice note.text sec.start_char sec.end_char ≠ [])
    (hstrip : pyStrip (pySlice note.text sec.start_char sec.end_char) =
      pySlice note.text sec.start_char sec.end_char)
    (hsep : containsSub "\n\n".toList (pySlice note.text sec.start_char sec.end_char) = false)
    (hlen : (pySlice note.text sec.start_char sec.end_char).length ≤ mp) :
    create_chunks_from_section sec note cs co mp =
      .ok [⟨sectionChunkId sec.title 0, pySlice note.text sec.start_char sec.end_char,
            sec.start_char, sec.end_char, sec.title⟩] := by
  set st := pySlice note.text sec.start_char sec.end_char with hst
  have hpar : split_into_paragraphs st = [st] := by
    unfold split_into_paragraphs
    rw [splitPara_no_sep st hsep]
    simp [hstrip, hne]
  have hfind : pyFind st st = 0 := by
    unfold pyFind
    rw [subIndex_self]
    rfl
  have hproc :
      ((split_into_paragraphs st).map
        (fun p => if mp < p.length then split_long_paragraph p mp else [p])).flatten = [st] := by
    rw [hpar]
    simp [not_lt.mpr hlen]
  have hgoal : create_chunks_from_section sec note cs co mp =
      chunkLoop sec st cs co
        (((split_into_paragraphs st).map
          (fun p => if mp < p.length then split_long_paragraph p mp else [p])).flatten)
        [] sec.start_char 0 := rfl
  rw [hgoal, hproc]
  have e1 : chunkLoop sec st cs co [st] [] sec.start_char 0 =
      chunkLoop sec st cs co [] st
        (if 0 ≤ pyFind st st then sec.start_char + pyFind st st else sec.start_char) 0 := rfl
  rw [e1, hfind]
  norm_num
  have e2 : chunkLoop sec st cs co [] st sec.start_char 0 =
      if st ≠ [] then
        (do
          let c ← mkChunk (sectionChunkId sec.title 0) (pyStrip st) sec.start_char
            sec.end_char sec.title
          Except.ok [c])
      else Except.ok [] := rfl
  rw [e2, if_pos hne, hstrip]
  unfold mkChunk
  rw [if_neg (by omega)]
  rfl

end ClinicalNotes

namespace ClinicalNotes

/-- Right strip keeps a prefix of the input. -/
theorem pyRStrip_prefix (l : Str) : pyRStrip l <+: l := by
  unfold pyRStrip
  conv_rhs => rw [← l.reverse_reverse]
  exact List.reverse_prefix.mpr (List.dropWhile_suffix pyIsSpace)

/-- A stripped string is empty exactly when every character is
whitespace. -/
theorem pyStrip_eq_nil_iff (s : Str) :
    pyStrip s = [] ↔ ∀ c ∈ s, pyIsSpace c = true := by
  constructor
  · intro h c hc
    by_contra hcw
    have hL : pyLStrip s ≠ [] := by
      unfold pyLStrip
      rw [Ne, List.dropWhile_eq_nil_iff]
      push_neg
      exact ⟨c, hc, hcw⟩
    have hhq := List.head?_dropWhile_not pyIsSpace s
    rcases hq : (s.dropWhile pyIsSpace).head? with _ | d
    · rw [List.head?_eq_none_iff] at hq
      exact hL hq
    · rw [hq] at hhq
      have hhq2 : pyIsSpace d = false := hhq
      have hd : d ∈ pyLStrip s := by
        unfold pyLStrip
        rcases hdw : s.dropWhile pyIsSpace with _ | ⟨x, xs⟩
        · rw [hdw] at hq; cases hq
        · rw [hdw] at hq
          simp only [List.head?_cons, Option.some.injEq] at hq
          rw [hq]
          exact List.mem_cons_self d xs
      unfold pyStrip pyRStrip at h
      rw [List.reverse_eq_nil_iff, List.dropWhile_eq_nil_iff] at h
      have hds := h d (by rw [List.mem_reverse]; exact hd)
      rw [hds] at hhq2
      cases hhq2
  · intro h
    have hL : pyLStrip s = [] := by
      unfold pyLStrip
      rw [List.dropWhile_eq_nil_iff]
      exact h
    unfold pyStrip
    rw [hL]
    rfl

/-- A nonempty stripped string contains a non-whitespace character. -/
theorem exists_not_ws_of_pyStrip_ne_nil (s : Str) (h : pyStrip s ≠ []) :
    ∃ c ∈ pyStrip s, pyIsSpace c = false := by
  have hL : pyLStrip s ≠ [] := by
    intro hnil
    refine h ?_
    unfold pyStrip
    rw [hnil]
    rfl
  obtain ⟨t, ht⟩ := pyRStrip_prefix (pyLStrip s)
  rcases hs : pyStrip s with _ | ⟨c, cs⟩
  · exact absurd hs h
  · refine ⟨c, by simp [hs], ?_⟩
    have hq : (pyLStrip s).head? = some c := by
      have hst : pyStrip s ++ t = pyLStrip s := ht
      rw [← hst, hs]
      rfl
    have hhq := List.head?_dropWhile_not pyIsSpace s
    unfold pyLStrip at hq
    rw [hq] at hhq
    exact hhq

end ClinicalNotes

namespace ClinicalNotes

/-- Every piece the sentence re-merge loop emits is nonempty, as long as
the running buffer is empty or contains a non-whitespace character. -/
theorem mergeSentences_mem_ne_nil (mp : ℕ) (l : List Str) :
    ∀ (cur : Str), (cur = [] ∨ ∃ c ∈ cur, pyIsSpace c = false) →
    ∀ q ∈ mergeSentences mp l cur, q ≠ [] := by
  induction l with
  | nil =>
    intro cur hcur q hq
    simp only [mergeSentences] at hq
    split at hq
    · rename_i hc
      simp only [List.mem_singleton] at hq
      subst hq
      rcases hcur with rfl | ⟨c, hcmem, hcw⟩
      · simp at hc
      · intro hnil
        rw [pyStrip_eq_nil_iff] at hnil
        rw [hnil c hcmem] at hcw
        cases hcw
    · simp at hq
  | cons s rest ih =>
    intro cur hcur q hq
    simp only [mergeSentences] at hq
    split at hq
    · exact ih cur hcur q hq
    · rename_i h1
      have hsw := exists_not_ws_of_pyStrip_ne_nil s h1
      split at hq
      · rename_i h2
        rcases List.mem_cons.mp hq with rfl | hq2
        · rcases hcur with rfl | ⟨c, hcmem, hcw⟩
          · simp at h2
          · intro hnil
            rw [pyStrip_eq_nil_iff] at hnil
            rw [hnil c hcmem] at hcw
            cases hcw
        · exact ih (pyStrip s) (Or.inr hsw) q hq2
      · split at hq
        · rename_i h3
          refine ih (cur ++ ' ' :: pyStrip s) (Or.inr ?_) q hq
          obtain ⟨c, hcm, hcw⟩ := hsw
          exact ⟨c, by simp [hcm], hcw⟩
        · exact ih (pyStrip s) (Or.inr hsw) q hq

/-- Splitting a nonempty long paragraph yields nonempty pieces. -/
theorem split_long_paragraph_mem_ne_nil (p : Str) (mp : ℕ) (hp : p ≠ []) :
    ∀ q ∈ split_long_paragraph p mp, q ≠ [] := by
  intro q hq
  unfold split_long_paragraph at hq
  split at hq
  · simp only [List.mem_singleton] at hq
    subst hq
    exact hp
  · simp only at hq
    split at hq
    · exact mergeSentences_mem_ne_nil mp _ [] (Or.inl rfl) q hq
    · simp only [List.mem_singleton] at hq
      subst hq
      exact hp

/-- Every processed paragraph `create_chunks_from_section` feeds into the
accumulation loop is nonempty. -/
theorem processed_mem_ne_nil (t : Str) (mp : ℕ) :
    ∀ q ∈ ((split_into_paragraphs t).map
      (fun p => if mp < p.length then split_long_paragraph p mp else [p])).flatten,
      q ≠ [] := by
  intro q hq
  rw [List.mem_flatten] at hq
  obtain ⟨l, hl, hql⟩ := hq
  rw [List.mem_map] at hl
  obtain ⟨p, hp, rfl⟩ := hl
  have hpne : p ≠ [] := by
    unfold split_into_paragraphs at hp
    have := List.of_mem_filter hp
    simpa using this
  split at hql
  · exact split_long_paragraph_mem_ne_nil p mp hpne q hql
  · simp only [List.mem_singleton] at hql
    subst hql
    exact hpne

/-- A Python suffix slice `s[-k:]` has at most `k` characters. -/
theorem pyTakeLast_length_le (k : ℕ) (s : Str) : (pyTakeLast k s).length ≤ k := by
  unfold pyTakeLast
  rw [List.length_drop]
  omega

end ClinicalNotes

namespace ClinicalNotes

/-- Inversion for a successful `Chunk` construction. -/
theorem mkChunk_ok_eq {cid t : Str} {s e : ℤ} {ti : Str} {c : Chunk}
    (h : mkChunk cid t s e ti = .ok c) : c = ⟨cid, t, s, e, ti⟩ := by
  unfold mkChunk at h
  split at h
  · cases h
  · simp only [Except.ok.injEq] at h
    exact h.symm

/-- The accumulation loop only ever shifts a new chunk's start backward
from the previous chunk's end by the length of the carryover, which is at
most `chunk_overlap`; the first emitted chunk starts at the running
buffer's start offset. -/
theorem chunkLoop_adjacent (sec : Section) (sectText : Str) (cs co : ℕ)
    (paras : List Str) :
    ∀ (cur : Str) (curStart : ℤ) (idx : ℕ) (l : List Chunk),
    (∀ p ∈ paras, p ≠ []) →
    chunkLoop sec sectText cs co paras cur curStart idx = .ok l →
    List.Chain' (fun a b => a.end_char - (co : ℤ) ≤ b.start_char) l ∧
    (cur ≠ [] → ∀ a, l.head? = some a → a.start_char = curStart) := by
  induction paras with
  | nil =>
    intro cur curStart idx l _ hok
    simp only [chunkLoop] at hok
    split at hok
    · cases hmk : mkChunk (sectionChunkId sec.title idx) (pyStrip cur) curStart
          sec.end_char sec.title with
      | error e =>
        rw [hmk] at hok
        have hfalse : (Except.error e : Except PyErr (List Chunk)) = .ok l := hok
        simp at hfalse
      | ok c =>
        rw [hmk] at hok
        have hok2 : (Except.ok [c] : Except PyErr (List Chunk)) = .ok l := hok
        simp only [Except.ok.injEq] at hok2
        subst hok2
        have hc := mkChunk_ok_eq hmk
        refine ⟨List.chain'_singleton _, fun _ a ha => ?_⟩
        simp only [List.head?_cons, Option.some.injEq] at ha
        rw [← ha, hc]
    · have hok2 : (Except.ok [] : Except PyErr (List Chunk)) = .ok l := hok
      simp only [Except.ok.injEq] at hok2
      subst hok2
      exact ⟨List.chain'_nil, fun _ a ha => by simp at ha⟩
  | cons para rest ih =>
    intro cur curStart idx l hps hok
    have hpara : para ≠ [] := hps para (List.mem_cons_self _ _)
    have hrest : ∀ p ∈ rest, p ≠ [] := fun p hp => hps p (List.mem_cons_of_mem _ hp)
    simp only [chunkLoop] at hok
    split at hok
    · -- close the current chunk
      set chunkEnd := sec.start_char + ((min cur.length sectText.length : ℕ) : ℤ)
        with hCE
      set ov0 := pyTakeLast co cur with hov0
      set ov1 := (match subIndex [' '] ov0 with
        | some k => if 0 < k then ov0.drop (k + 1) else ov0
        | none => ov0) with hov1
      have hov1len : ov1.length ≤ co := by
        have hbase : ov0.length ≤ co := pyTakeLast_length_le co cur
        rw [hov1]
        split
        · split
          · rw [List.length_drop]
            omega
          · exact hbase
        · exact hbase
      by_cases hcarry : (decide (0 < co) && decide (co < cur.length)) = true
      · rw [if_pos hcarry] at hok
        dsimp only at hok
        cases hmk : mkChunk (sectionChunkId sec.title idx) (pyStrip cur) curStart
            chunkEnd sec.title with
        | error e =>
          rw [hmk] at hok
          have hfalse : (Except.error e : Except PyErr (List Chunk)) = .ok l := hok
          simp at hfalse
        | ok c =>
          rw [hmk] at hok
          have hok2 : (chunkLoop sec sectText cs co rest
              (ov1 ++ "\n\n".toList ++ para) (chunkEnd - (ov1.length : ℤ))
              (idx + 1)).bind (fun tl => Except.ok (c :: tl)) = .ok l := hok
          cases hrec : chunkLoop sec sectText cs co rest
              (ov1 ++ "\n\n".toList ++ para) (chunkEnd - (ov1.length : ℤ))
              (idx + 1) with
          | error e =>
            rw [hrec] at hok2
            simp [Except.bind] at hok2
          | ok tl =>
            rw [hrec] at hok2
            simp only [Except.bind, Except.ok.injEq] at hok2
            subst hok2
            have hc := mkChunk_ok_eq hmk
            obtain ⟨ihC, ihH⟩ := ih _ _ _ _ hrest hrec
            constructor
            · rw [List.chain'_cons']
              refine ⟨?_, ihC⟩
              intro b hb
              have hbs := ihH (by simp) b hb
              rw [hbs, hc]
              simp only
              omega
            · intro _ a ha
              simp only [List.head?_cons, Option.some.injEq] at ha
              rw [← ha, hc]
      · rw [if_neg hcarry] at hok
        dsimp only at hok
        cases hmk : mkChunk (sectionChunkId sec.title idx) (pyStrip cur) curStart
            chunkEnd sec.title with
        | error e =>
          rw [hmk] at hok
          have hfalse : (Except.error e : Except PyErr (List Chunk)) = .ok l := hok
          simp at hfalse
        | ok c =>
          rw [hmk] at hok
          have hok2 : (chunkLoop sec sectText cs co rest para chunkEnd
              (idx + 1)).bind (fun tl => Except.ok (c :: tl)) = .ok l := hok
          cases hrec : chunkLoop sec sectText cs co rest para chunkEnd (idx + 1) with
          | error e =>
            rw [hrec] at hok2
            simp [Except.bind] at hok2
          | ok tl =>
            rw [hrec] at hok2
            simp only [Except.bind, Except.ok.injEq] at hok2
            subst hok2
            have hc := mkChunk_ok_eq hmk
            obtain ⟨ihC, ihH⟩ := ih _ _ _ _ hrest hrec
            constructor
            · rw [List.chain'_cons']
              refine ⟨?_, ihC⟩
              intro b hb
              have hbs := ihH hpara b hb
              rw [hbs, hc]
              simp only
              omega
            · intro _ a ha
              simp only [List.head?_cons, Option.some.injEq] at ha
              rw [← ha, hc]
    · -- the paragraph fits, or the buffer is empty
      split at hok
      · rename_i hcurne
        obtain ⟨ihC, ihH⟩ := ih _ _ _ _ hrest hok
        exact ⟨ihC, fun _ a ha => ihH (by simp) a ha⟩
      · rename_i hcurnil
        obtain ⟨ihC, ihH⟩ := ih _ _ _ _ hrest hok
        exact ⟨ihC, fun hcur _ _ => absurd (not_not.mp hcurnil) hcur⟩


end ClinicalNotes

namespace ClinicalNotes

/-- C10 (amended): for every run of `create_chunks_from_section`, each
chunk's `start_char` is shifted backward from the previous chunk's
`end_char` by at most `chunk_overlap` (the carryover seeded into a newly
opened chunk has length at most `chunk_overlap`).  The word-boundary part
of the original claim fails: the carryover is trimmed forward to a word
boundary only when the trailing `chunk_overlap`-character window contains
a space after its first character; when the window contains no space the
whole window is carried and can start mid-word (see the counterexample). -/
theorem chunk_carryover_bounded (sec : Section) (note : CanonicalNote)
    (cs co mp : ℕ) (l : List Chunk)
    (h : create_chunks_from_section sec note cs co mp = .ok l) :
    ∀ (i : ℕ) (a b : Chunk), l[i]? = some a → l[i + 1]? = some b →
      a.end_char - (co : ℤ) ≤ b.start_char := by
  have hps := processed_mem_ne_nil (pySlice note.text sec.start_char sec.end_char) mp
  have h' : chunkLoop sec (pySlice note.text sec.start_char sec.end_char) cs co
      (((split_into_paragraphs (pySlice note.text sec.start_char sec.end_char)).map
        (fun p => if mp < p.length then split_long_paragraph p mp else [p])).flatten)
      [] sec.start_char 0 = .ok l := h
  have hloop := chunkLoop_adjacent sec
    (pySlice note.text sec.start_char sec.end_char) cs co _ [] sec.start_char 0 l hps h'
  intro i a b ha hb
  rw [List.getElem?_eq_some_iff] at ha hb
  obtain ⟨hia, hae⟩ := ha
  obtain ⟨hib, hbe⟩ := hb
  have hchain := List.chain'_iff_get.mp hloop.1 i (by omega)
  simp only [List.get_eq_getElem] at hchain
  rw [← hae, ← hbe]
  exact hchain

/-- C10 witness: the two-chunk run on `overlapNote` with
`chunk_overlap = 4`, instantiating the carryover bound at the adjacent
pair (the second chunk starts at `8 - 4 = 4`). -/
theorem chunk_carryover_bounded_witness :
    create_chunks_from_section overlapSection overlapNote 10 4 100 =
      .ok [⟨"s_0".toList, "abcdefgh".toList, 0, 8, "S".toList⟩,
           ⟨"s_1".toList, ('e' :: 'f' :: 'g' :: 'h' :: '\n' :: '\n' :: 'x' :: 'y' :: []), 4, 12, "S".toList⟩] ∧
    (8 : ℤ) - ((4 : ℕ) : ℤ) ≤ (4 : ℤ) :=
  ⟨by rfl,
    chunk_carryover_bounded overlapSection overlapNote 10 4 100 _ (by rfl) 0
      ⟨"s_0".toList, "abcdefgh".toList, 0, 8, "S".toList⟩
      ⟨"s_1".toList, ('e' :: 'f' :: 'g' :: 'h' :: '\n' :: '\n' :: 'x' :: 'y' :: []), 4, 12, "S".toList⟩
      (by rfl) (by rfl)⟩

/-- C2 witness: the single-paragraph section `"HELLO WORLD"` chunks to
exactly one chunk reproducing the section's substring and span,
instantiating the single-paragraph round-trip law. -/
theorem chunk_roundtrip_single_paragraph_witness :
    (pySlice singleParaNote.text singleParaSection.start_char singleParaSection.end_char =
      "HELLO WORLD".toList) ∧
    create_chunks_from_section singleParaSection singleParaNote 50 10 100 =
      .ok [⟨sectionChunkId singleParaSection.title 0,
            pySlice singleParaNote.text singleParaSection.start_char singleParaSection.end_char,
            singleParaSection.start_char, singleParaSection.end_char,
            singleParaSection.title⟩] :=
  ⟨by rfl,
    chunk_roundtrip_single_paragraph singleParaSection singleParaNote 50 10 100
      (by decide) (by decide) (by decide) (by decide) (by decide) (by decide)
      (by decide) (by decide) (by decide) (by decide)⟩

end ClinicalNotes

namespace ClinicalNotes

/-- A line that passes the header filter has a nonempty stripped form, so
its leading whitespace is strictly shorter than the line. -/
theorem lineHeaderInfo_lw_lt (l : Str) (lw : ℕ) (ht : Str)
    (h : lineHeaderInfo l = some (lw, ht)) : lw < l.length := by
  simp only [lineHeaderInfo] at h
  split at h
  · cases h
  · rename_i hstripped
    have hL : pyLStrip l ≠ [] := by
      intro hnil
      apply hstripped
      unfold pyStrip
      rw [hnil]
      rfl
    have hLlen : 1 ≤ (pyLStrip l).length := by
      rcases hq : pyLStrip l with _ | _
      · exact absurd hq hL
      · simp
    have hle : (pyLStrip l).length ≤ l.length := by
      unfold pyLStrip
      exact (List.dropWhile_sublist pyIsSpace).length_le
    split at h
    · cases h
    · split at h
      · cases h
      · split at h
        · cases h
        · split at h
          · simp only [Option.some.injEq, Prod.mk.injEq] at h
            omega
          · cases h

/-- Candidate positions never precede the running offset. -/
theorem headerCandidatesAux_le (ls : List Str) :
    ∀ (prev : Option Str) (off : ℕ) p h,
    (p, h) ∈ headerCandidatesAux prev off ls → off ≤ p := by
  induction ls with
  | nil => intro prev off p h hmem; simp [headerCandidatesAux] at hmem
  | cons l rest ih =>
    intro prev off p h hmem
    simp only [headerCandidatesAux] at hmem
    rw [List.mem_append] at hmem
    rcases hmem with hmem | hmem
    · split at hmem
      · split at hmem
        · simp only [List.mem_singleton, Prod.mk.injEq] at hmem
          omega
        · simp at hmem
      · simp at hmem
    · have := ih (some l) (off + l.length + 1) p h hmem
      omega

/-- Candidate positions stay strictly inside the scanned block: with the
lines' joined size `S = Σ (len + 1)`, every candidate satisfies
`p + 2 ≤ off + S`. -/
theorem headerCandidatesAux_lt (ls : List Str) :
    ∀ (prev : Option Str) (off : ℕ) p h,
    (p, h) ∈ headerCandidatesAux prev off ls →
    p + 2 ≤ off + (ls.map (fun l => l.length + 1)).sum := by
  induction ls with
  | nil => intro prev off p h hmem; simp [headerCandidatesAux] at hmem
  | cons l rest ih =>
    intro prev off p h hmem
    simp only [headerCandidatesAux] at hmem
    rw [List.mem_append] at hmem
    simp only [List.map_cons, List.sum_cons]
    rcases hmem with hmem | hmem
    · split at hmem
      · rename_i lw ht hinfo
        split at hmem
        · simp only [List.mem_singleton, Prod.mk.injEq] at hmem
          have hlt := lineHeaderInfo_lw_lt l lw ht hinfo
          omega
        · exact absurd hmem (by simp)
      · exact absurd hmem (by simp)
    · have := ih (some l) (off + l.length + 1) p h hmem
      omega

/-- Candidates are listed in strictly increasing position order. -/
theorem headerCandidatesAux_pairwise (ls : List Str) :
    ∀ (prev : Option Str) (off : ℕ),
    (headerCandidatesAux prev off ls).Pairwise (fun a b => a.1 < b.1) := by
  induction ls with
  | nil => intro prev off; simp [headerCandidatesAux]
  | cons l rest ih =>
    intro prev off
    simp only [headerCandidatesAux]
    have htail := ih (some l) (off + l.length + 1)
    rcases hinfo : lineHeaderInfo l with _ | ⟨lw, ht⟩
    · simpa [hinfo] using htail
    · simp only [hinfo]
      split
      · rw [List.singleton_append, List.pairwise_cons]
        refine ⟨?_, htail⟩
        intro b hb
        have hble := headerCandidatesAux_le rest (some l) (off + l.length + 1) b.1 b.2
          (by simpa using hb)
        have hlt := lineHeaderInfo_lw_lt l lw ht hinfo
        omega
      · simpa using htail

/-- The deduplication pass keeps a sublist. -/
theorem dedupSeen_sublist (l : List (ℕ × Str)) :
    ∀ seen, List.Sublist (dedupSeen seen l) l := by
  induction l with
  | nil => intro seen; simp [dedupSeen]
  | cons ph rest ih =>
    intro seen
    rcases ph with ⟨p, h⟩
    simp only [dedupSeen]
    split
    · exact (ih seen).cons _
    · exact (ih _).cons₂ _

/-- The lines of a split cover the string: the joined size is the
string's length plus one. -/
theorem splitLines_size (s : Str) :
    ((splitLines s).map (fun l => l.length + 1)).sum = s.length + 1 := by
  induction s using splitLines.induct with
  | case1 => rfl
  | case2 rest ih =>
    have hs : splitLines ('\n' :: rest) = [] :: splitLines rest := rfl
    rw [hs]
    simp only [List.map_cons, List.sum_cons, List.length_cons, List.length_nil]
    omega
  | case3 c rest hne hnil ih =>
    rw [hnil] at ih
    simp at ih
  | case4 c rest hne l ls heq ih =>
    have hs : splitLines (c :: rest) = (c :: l) :: ls := by
      rw [splitLines.eq_def]
      split
      · rename_i h
        exact absurd h (List.cons_ne_nil c rest)
      · rename_i r h
        injection h with h1 h2
        exact absurd h1 hne
      · rename_i c2 rest2 hne2 h
        injection h with h1 h2
        subst h1
        subst h2
        rw [heq]
    rw [hs]
    rw [heq] at ih
    simp only [List.map_cons, List.sum_cons, List.length_cons] at ih ⊢
    omega

end ClinicalNotes

namespace ClinicalNotes

/-- The detected headers are strictly increasing in position and lie in
`[overview_end, len text)`. -/
theorem find_section_headers_spec (text : Str) (ov : ℕ) :
    (find_section_headers_in_text text ov).Pairwise (fun a b => a.1 < b.1) ∧
    ∀ ph ∈ find_section_headers_in_text text ov, ov ≤ ph.1 ∧ ph.1 < text.length := by
  have hmain : find_section_headers_in_text text ov =
      dedupSeen [] (List.insertionSort (fun a b : ℕ × Str => a.1 ≤ b.1)
        (headerCandidatesAux none ov (splitLines (text.drop ov)))) := rfl
  rw [hmain]
  set cands := headerCandidatesAux none ov (splitLines (text.drop ov)) with hc
  have hpw : cands.Pairwise (fun a b => a.1 < b.1) :=
    headerCandidatesAux_pairwise _ none ov
  have hsorted : List.Sorted (fun a b : ℕ × Str => a.1 ≤ b.1) cands :=
    hpw.imp (fun h => le_of_lt h)
  rw [List.Sorted.insertionSort_eq hsorted]
  have hsub := dedupSeen_sublist cands []
  refine ⟨List.Pairwise.sublist hsub hpw, ?_⟩
  intro ph hmem
  have hmem2 : (ph.1, ph.2) ∈ cands := by
    rw [Prod.mk.eta]
    exact hsub.subset hmem
  have h1 := headerCandidatesAux_le _ none ov ph.1 ph.2 hmem2
  have h2 := headerCandidatesAux_lt _ none ov ph.1 ph.2 hmem2
  rw [splitLines_size] at h2
  have hdrop : (text.drop ov).length = text.length - ov := List.length_drop ov text
  rw [hdrop] at h2
  exact ⟨h1, by omega⟩

/-- A section construction with a valid span succeeds. -/
theorem mkSection_ok (title : Str) (s e sp ep : ℤ) (h : s < e) :
    mkSection title s e sp ep = .ok ⟨title, s, e, sp, ep⟩ := by
  unfold mkSection
  rw [if_neg (by omega)]

/-- Coverage distributes over a cons cell. -/
theorem coveredBySections_cons (s : Section) (l : List Section) (c : ℤ) :
    coveredBySections (s :: l) c ↔
      (s.start_char ≤ c ∧ c < s.end_char) ∨ coveredBySections l c := by
  constructor
  · rintro ⟨x, hx, h1, h2⟩
    rcases List.mem_cons.mp hx with rfl | hx
    · exact Or.inl ⟨h1, h2⟩
    · exact Or.inr ⟨x, hx, h1, h2⟩
  · rintro (⟨h1, h2⟩ | ⟨x, hx, h1, h2⟩)
    · exact ⟨s, List.mem_cons_self _ _, h1, h2⟩
    · exact ⟨x, List.mem_cons_of_mem _ hx, h1, h2⟩

/-- The header loop of `create_sections_from_headers` succeeds on strictly
increasing in-bounds headers and produces contiguous ordered sections
covering `[first header, len text)`. -/
theorem sectionsFromHeaderList_spec (text : Str) (note : CanonicalNote) :
    ∀ (hs : List (ℕ × Str)),
    hs.Pairwise (fun a b => a.1 < b.1) →
    (∀ ph ∈ hs, ph.1 < text.length) →
    ∃ l, sectionsFromHeaderList text note hs = .ok l ∧
      List.Chain' (fun a b : Section => a.end_char ≤ b.start_char) l ∧
      (∀ c : ℤ, coveredBySections l c ↔
        ∃ ph, hs.head? = some ph ∧ (ph.1 : ℤ) ≤ c ∧ c < (text.length : ℤ)) ∧
      (∀ a, l.head? = some a → ∃ ph, hs.head? = some ph ∧ a.start_char = (ph.1 : ℤ)) ∧
      (l = [] ↔ hs = []) := by
  intro hs
  induction hs with
  | nil =>
    intro _ _
    refine ⟨[], rfl, List.chain'_nil, ?_, ?_, by simp⟩
    · intro c
      simp [coveredBySections]
    · intro a ha
      simp at ha
  | cons ph rest ih =>
    intro hpw hb
    rcases ph with ⟨p, t⟩
    rw [List.pairwise_cons] at hpw
    obtain ⟨l', hok', hchain', hcov', hhead', hnil'⟩ :=
      ih hpw.2 (fun q hq => hb q (List.mem_cons_of_mem _ hq))
    have hplen : p < text.length := hb (p, t) (List.mem_cons_self _ _)
    rcases rest with _ | ⟨⟨q, t2⟩, rest2⟩
    · have hl' : l' = [] := hnil'.mpr rfl
      refine ⟨[⟨pyStrip t, (p : ℤ), (text.length : ℤ),
          charSpanToPage (p : ℤ) (text.length : ℤ) note.page_spans - 1,
          charSpanToPage ((text.length : ℤ) - 1) (text.length : ℤ) note.page_spans - 1⟩],
        ?_, List.chain'_singleton _, ?_, ?_, by simp⟩
      · have hstep : sectionsFromHeaderList text note [(p, t)] =
            (mkSection (pyStrip t) (p : ℤ) (text.length : ℤ)
              (charSpanToPage (p : ℤ) (text.length : ℤ) note.page_spans - 1)
              (charSpanToPage ((text.length : ℤ) - 1) (text.length : ℤ) note.page_spans - 1)).bind
              (fun s => Except.ok [s]) := rfl
        rw [hstep, mkSection_ok _ _ _ _ _ (by exact_mod_cast hplen)]
        rfl
      · intro c
        rw [coveredBySections_cons]
        simp only [coveredBySections, List.not_mem_nil, false_and, exists_false,
          List.head?_cons, Option.some.injEq]
        constructor
        · rintro (⟨h1, h2⟩ | h)
          · exact ⟨(p, t), rfl, h1, h2⟩
          · simp at h
        · rintro ⟨ph2, hph2, h1, h2⟩
          subst hph2
          exact Or.inl ⟨h1, h2⟩
      · intro a ha
        simp only [List.head?_cons, Option.some.injEq] at ha
        exact ⟨(p, t), rfl, by rw [← ha]⟩
    · have hpq : p < q := hpw.1 (q, t2) (List.mem_cons_self _ _)
      have hqlen : q < text.length := hb (q, t2) (by simp)
      refine ⟨⟨pyStrip t, (p : ℤ), (q : ℤ),
          charSpanToPage (p : ℤ) (q : ℤ) note.page_spans - 1,
          charSpanToPage ((q : ℤ) - 1) (q : ℤ) note.page_spans - 1⟩ :: l',
        ?_, ?_, ?_, ?_, by simp⟩
      · have hstep : sectionsFromHeaderList text note ((p, t) :: (q, t2) :: rest2) =
            (mkSection (pyStrip t) (p : ℤ) (q : ℤ)
              (charSpanToPage (p : ℤ) (q : ℤ) note.page_spans - 1)
              (charSpanToPage ((q : ℤ) - 1) (q : ℤ) note.page_spans - 1)).bind
              (fun s => (sectionsFromHeaderList text note ((q, t2) :: rest2)).bind
                (fun tl => Except.ok (s :: tl))) := rfl
        rw [hstep, mkSection_ok _ _ _ _ _ (by exact_mod_cast hpq), hok']
        rfl
      · rw [List.chain'_cons']
        refine ⟨?_, hchain'⟩
        intro b hb2
        obtain ⟨ph2, hph2, hbs⟩ := hhead' b hb2
        simp only [List.head?_cons, Option.some.injEq] at hph2
        subst hph2
        rw [hbs]
      · intro c
        rw [coveredBySections_cons]
        rw [hcov' c]
        simp only [List.head?_cons, Option.some.injEq]
        constructor
        · rintro (⟨h1, h2⟩ | ⟨ph2, hph2, h1, h2⟩)
          · refine ⟨(p, t), rfl, h1, by exact_mod_cast by omega⟩
          · subst hph2
            refine ⟨(p, t), rfl, ?_, h2⟩
            simp only at h1 ⊢
            omega
        · rintro ⟨ph2, hph2, h1, h2⟩
          subst hph2
          simp only at h1 h2
          by_cases hcq : c < (q : ℤ)
          · exact Or.inl ⟨h1, hcq⟩
          · exact Or.inr ⟨(q, t2), rfl, by omega, h2⟩
      · intro a ha
        simp only [List.head?_cons, Option.some.injEq] at ha
        exact ⟨(p, t), rfl, by rw [← ha]⟩

end ClinicalNotes

namespace ClinicalNotes

/-- The head of a list is a member. -/
theorem head?_mem {α : Type} {l : List α} {a : α} (h : l.head? = some a) : a ∈ l := by
  rcases l with _ | ⟨x, xs⟩
  · simp at h
  · simp only [List.head?_cons, Option.some.injEq] at h
    rw [← h]
    exact List.mem_cons_self x xs

/-- `create_sections_from_headers` succeeds on strictly increasing
in-bounds headers; its sections are ordered and cover exactly
`[0, overview_end) ∪ [first filtered header, len text)`. -/
theorem create_sections_spec (text : Str) (note : CanonicalNote) (ov : ℕ)
    (headers : List (ℕ × Str))
    (hpw : headers.Pairwise (fun a b => a.1 < b.1))
    (hb : ∀ ph ∈ headers, ph.1 < text.length) :
    ∃ l, create_sections_from_headers text headers ov note = .ok l ∧
      List.Chain' (fun a b : Section => a.end_char ≤ b.start_char) l ∧
      (∀ c : ℤ, coveredBySections l c ↔
        ((0 ≤ c ∧ c < (ov : ℤ)) ∨
          ∃ ph, (headers.filter (fun x => ov ≤ x.1)).head? = some ph ∧
            (ph.1 : ℤ) ≤ c ∧ c < (text.length : ℤ))) ∧
      (l = [] ↔ (ov = 0 ∧ headers.filter (fun x => ov ≤ x.1) = [])) := by
  obtain ⟨l', hok', hchain', hcov', hhead', hnil'⟩ :=
    sectionsFromHeaderList_spec text note (headers.filter (fun x => ov ≤ x.1))
      (List.Pairwise.filter _ hpw) (fun q hq => hb q (List.mem_of_mem_filter hq))
  by_cases hov : 0 < ov
  · refine ⟨⟨"Overview".toList, 0, (ov : ℤ),
        charSpanToPage 0 (ov : ℤ) note.page_spans - 1,
        charSpanToPage ((ov : ℤ) - 1) (ov : ℤ) note.page_spans - 1⟩ :: l',
      ?_, ?_, ?_, ?_⟩
    · have hstep : create_sections_from_headers text headers ov note =
          (mkSection "Overview".toList 0 (ov : ℤ)
            (charSpanToPage 0 (ov : ℤ) note.page_spans - 1)
            (charSpanToPage ((ov : ℤ) - 1) (ov : ℤ) note.page_spans - 1)).bind
            (fun s =>
              (sectionsFromHeaderList text note (headers.filter (fun x => ov ≤ x.1))).bind
                (fun hsecs => Except.ok ([s] ++ hsecs))) := by
        unfold create_sections_from_headers
        rw [if_pos hov]
        rfl
      rw [hstep, mkSection_ok _ _ _ _ _ (by exact_mod_cast hov), hok']
      rfl
    · rw [List.chain'_cons']
      refine ⟨?_, hchain'⟩
      intro b hb2
      obtain ⟨ph2, hph2, hbs⟩ := hhead' b hb2
      have hmem2 := head?_mem hph2
      have hovle : ov ≤ ph2.1 := by
        have := List.of_mem_filter hmem2
        simpa using this
      rw [hbs]
      simp only
      exact_mod_cast hovle
    · intro c
      rw [coveredBySections_cons, hcov' c]
    · constructor
      · intro hcontra
        cases hcontra
      · rintro ⟨hov0, _⟩
        omega
  · have hov0 : ov = 0 := by omega
    refine ⟨l', ?_, hchain', ?_, ?_⟩
    · have hstep : create_sections_from_headers text headers ov note =
          (sectionsFromHeaderList text note (headers.filter (fun x => ov ≤ x.1))).bind
            (fun hsecs => Except.ok ([] ++ hsecs)) := by
        unfold create_sections_from_headers
        rw [if_neg hov]
        rfl
      rw [hstep, hok']
      rfl
    · intro c
      rw [hcov' c]
      constructor
      · intro h
        exact Or.inr h
      · rintro (⟨h1, h2⟩ | h)
        · rw [hov0] at h2
          omega
        · exact h
    · rw [hnil']
      constructor
      · intro h
        exact ⟨hov0, h⟩
      · rintro ⟨_, h⟩
        exact h

end ClinicalNotes

namespace ClinicalNotes

/-- C1 (amended): whenever `detect_sections` returns, its sections are
nonempty, ordered and non-overlapping (each section ends no later than the
next begins; consecutive header sections are in fact contiguous), and
their union is exactly `[0, overview_boundary) ∪ [first detected header,
len text)` — which is all of `[0, len text)` in the `Full Note` fallback,
but in general leaves the region between the Overview boundary (or offset
0 when there is no Overview) and the first detected header, and the tail
when no header is detected, outside every section (see the
counterexample). -/
theorem detect_sections_ordered_partial_coverage (note : CanonicalNote)
    (ss : List Section) (h : detect_sections note = .ok ss) :
    ss ≠ [] ∧
    List.Chain' (fun a b : Section => a.end_char ≤ b.start_char) ss ∧
    (∀ c : ℤ, coveredBySections ss c ↔
      ((0 ≤ c ∧ c < (overviewEndOf note : ℤ)) ∨
       (∃ ph, (filteredHeadersOf note).head? = some ph ∧
         (ph.1 : ℤ) ≤ c ∧ c < (note.text.length : ℤ)) ∨
       (overviewEndOf note = 0 ∧ filteredHeadersOf note = [] ∧
         0 ≤ c ∧ c < (note.text.length : ℤ)))) := by
  obtain ⟨hpw, hbnd⟩ := find_section_headers_spec note.text (overviewEndOf note)
  obtain ⟨l0, hok0, hchain0, hcov0, hnil0⟩ :=
    create_sections_spec note.text note (overviewEndOf note)
      (find_section_headers_in_text note.text (overviewEndOf note)) hpw
      (fun q hq => (hbnd q hq).2)
  have hdet : detect_sections note =
      (create_sections_from_headers note.text
        (find_section_headers_in_text note.text (overviewEndOf note))
        (overviewEndOf note) note).bind (fun sections =>
          if sections.isEmpty then
            (mkSection "Full Note".toList 0 (note.text.length : ℤ) 0
              (if note.page_spans ≠ [] then (note.page_spans.length : ℤ) - 1 else 0)).bind
              (fun s => Except.ok [s])
          else Except.ok sections) := rfl
  rw [hdet, hok0] at h
  have h2 : (if l0.isEmpty then
      (mkSection "Full Note".toList 0 (note.text.length : ℤ) 0
        (if note.page_spans ≠ [] then (note.page_spans.length : ℤ) - 1 else 0)).bind
        (fun s => Except.ok [s])
    else Except.ok l0) = .ok ss := h
  by_cases hl0 : l0.isEmpty
  · rw [if_pos hl0] at h2
    have hl0nil : l0 = [] := List.isEmpty_iff.mp hl0
    obtain ⟨hov0, hfnil⟩ := hnil0.mp hl0nil
    have hfe : filteredHeadersOf note = [] := hfnil
    unfold mkSection at h2
    split at h2
    · have hfalse : (Except.error
          (PyErr.valueError "end_char must be greater than start_char") :
          Except PyErr (List Section)) = .ok ss := h2
      simp at hfalse
    · rename_i hgt
      have h3 : (Except.ok [(⟨"Full Note".toList, 0, (note.text.length : ℤ), 0,
          (if note.page_spans ≠ [] then (note.page_spans.length : ℤ) - 1 else 0)⟩ :
          Section)] : Except PyErr (List Section)) = .ok ss := h2
      simp only [Except.ok.injEq] at h3
      subst h3
      refine ⟨by simp, List.chain'_singleton _, ?_⟩
      intro c
      rw [coveredBySections_cons]
      simp only [hfe, hov0, List.head?_nil, coveredBySections, List.not_mem_nil,
        false_and, exists_false, or_false, Nat.cast_zero]
      constructor
      · rintro ⟨h1, h2c⟩
        exact Or.inr (Or.inr ⟨trivial, trivial, h1, h2c⟩)
      · rintro (⟨h1, h2c⟩ | h | ⟨_, _, h1, h2c⟩)
        · omega
        · simp at h
        · exact ⟨h1, h2c⟩
  · rw [if_neg hl0] at h2
    have h3 : l0 = ss := by simpa using h2
    subst h3
    have hne : l0 ≠ [] := by
      intro hnil
      rw [hnil] at hl0
      simp at hl0
    refine ⟨hne, hchain0, ?_⟩
    intro c
    rw [hcov0 c]
    have hnonempty : ¬ (overviewEndOf note = 0 ∧ filteredHeadersOf note = []) := by
      rintro ⟨ha, hb2⟩
      have hl0e : l0 = [] := hnil0.mpr ⟨ha, hb2⟩
      exact hne hl0e
    constructor
    · rintro (h4 | h4)
      · exact Or.inl h4
      · exact Or.inr (Or.inl h4)
    · rintro (h4 | h4 | ⟨h4a, h4b, _⟩)
      · exact Or.inl h4
      · exact Or.inr h4
      · exact absurd ⟨h4a, h4b⟩ hnonempty

/-- C1 witness: the theorem instantiated on `gapNote`, whose only section
is `[7, 19)`. -/
theorem detect_sections_ordered_partial_coverage_witness :
    detect_sections gapNote = .ok [⟨"PLAN".toList, 7, 19, 0, 0⟩] ∧
    ([⟨"PLAN".toList, 7, 19, 0, 0⟩] : List Section) ≠ [] ∧
    List.Chain' (fun a b : Section => a.end_char ≤ b.start_char)
      [⟨"PLAN".toList, 7, 19, 0, 0⟩] :=
  ⟨by rfl,
    (detect_sections_ordered_partial_coverage gapNote _ (by rfl)).1,
    (detect_sections_ordered_partial_coverage gapNote _ (by rfl)).2.1⟩

/-- C4 (amended): on every nonempty canonical text `detect_sections`
returns without raising, and when neither an Overview boundary nor any
usable header is detected the result is the single degenerate `Full Note`
section spanning the whole document.  (On the empty string the fallback
section fails the `end_char > start_char` validator and the function
raises — see the counterexample.) -/
theorem detect_sections_nonempty_no_raise (note : CanonicalNote)
    (hne : note.text ≠ []) :
    ∃ ss, detect_sections note = .ok ss ∧
      ((overviewEndOf note = 0 ∧ filteredHeadersOf note = []) →
        ss = [fullNoteOf note]) := by
  obtain ⟨hpw, hbnd⟩ := find_section_headers_spec note.text (overviewEndOf note)
  obtain ⟨l0, hok0, hchain0, hcov0, hnil0⟩ :=
    create_sections_spec note.text note (overviewEndOf note)
      (find_section_headers_in_text note.text (overviewEndOf note)) hpw
      (fun q hq => (hbnd q hq).2)
  have hdet : detect_sections note =
      (create_sections_from_headers note.text
        (find_section_headers_in_text note.text (overviewEndOf note))
        (overviewEndOf note) note).bind (fun sections =>
          if sections.isEmpty then
            (mkSection "Full Note".toList 0 (note.text.length : ℤ) 0
              (if note.page_spans ≠ [] then (note.page_spans.length : ℤ) - 1 else 0)).bind
              (fun s => Except.ok [s])
          else Except.ok sections) := rfl
  have hlen : (0 : ℤ) < (note.text.length : ℤ) := by
    have : note.text.length ≠ 0 := fun h0 => hne (List.length_eq_zero.mp h0)
    omega
  by_cases hl0 : l0.isEmpty
  · have hl0nil : l0 = [] := List.isEmpty_iff.mp hl0
    refine ⟨[fullNoteOf note], ?_, fun _ => rfl⟩
    rw [hdet, hok0]
    have hred : ((Except.ok l0 : Except PyErr (List Section)).bind (fun sections =>
        if sections.isEmpty then
          (mkSection "Full Note".toList 0 (note.text.length : ℤ) 0
            (if note.page_spans ≠ [] then (note.page_spans.length : ℤ) - 1 else 0)).bind
            (fun s => Except.ok [s])
        else Except.ok sections)) =
        (if l0.isEmpty then
          (mkSection "Full Note".toList 0 (note.text.length : ℤ) 0
            (if note.page_spans ≠ [] then (note.page_spans.length : ℤ) - 1 else 0)).bind
            (fun s => Except.ok [s])
        else Except.ok l0) := rfl
    rw [hred, if_pos hl0, mkSection_ok _ _ _ _ _ hlen]
    rfl
  · have hnonempty : ¬ (overviewEndOf note = 0 ∧ filteredHeadersOf note = []) := by
      rintro ⟨ha, hb2⟩
      have hl0e : l0 = [] := hnil0.mpr ⟨ha, hb2⟩
      rw [hl0e] at hl0
      simp at hl0
    refine ⟨l0, ?_, fun hcontra => absurd hcontra hnonempty⟩
    rw [hdet, hok0]
    have hred : ((Except.ok l0 : Except PyErr (List Section)).bind (fun sections =>
        if sections.isEmpty then
          (mkSection "Full Note".toList 0 (note.text.length : ℤ) 0
            (if note.page_spans ≠ [] then (note.page_spans.length : ℤ) - 1 else 0)).bind
            (fun s => Except.ok [s])
        else Except.ok sections)) =
        (if l0.isEmpty then
          (mkSection "Full Note".toList 0 (note.text.length : ℤ) 0
            (if note.page_spans ≠ [] then (note.page_spans.length : ℤ) - 1 else 0)).bind
            (fun s => Except.ok [s])
        else Except.ok l0) := rfl
    rw [hred, if_neg hl0]

/-- C4 witness: on the note `"xyz"` (nonempty, no Overview fields, no
headers) `detect_sections` succeeds with the single `Full Note` section
`[0, 3)`. -/
theorem detect_sections_nonempty_no_raise_witness :
    ("xyz".toList ≠ ([] : Str)) ∧
    ∃ ss, detect_sections ⟨"xyz".toList, []⟩ = .ok ss ∧
      ((overviewEndOf ⟨"xyz".toList, []⟩ = 0 ∧
        filteredHeadersOf ⟨"xyz".toList, []⟩ = []) →
        ss = [fullNoteOf ⟨"xyz".toList, []⟩]) :=
  ⟨by decide, detect_sections_nonempty_no_raise ⟨"xyz".toList, []⟩ (by decide)⟩

end ClinicalNotes
